import Mathlib

set_option linter.unusedSectionVars false

/-!
Formal model of the ResearchAssistant literature pipeline.

This file embeds, in Lean, the core of the repository:

* the string-similarity utility built on difflib.SequenceMatcher
  (utils.similar, utils.is_duplicate);
* the ranking engine (paper_ranker.rank_papers_by_relevance in both its
  top-level and packaged variants, including the TfidfVectorizer
  fit/transform ordering);
* the source adapters (SearchSemanticScholar, SearchArxiv,
  SearchGoogleScholar, and the paginated lit_review_engine variant);
* the enrichment engine (enrich_with_semantic_scholar,
  enrich_gs_results_parallel) with an explicit completion-schedule model
  of ThreadPoolExecutor.map.

External effects (HTTP transport, the sentence-embedding model, numpy
log1p) are modelled as explicit oracle parameters; Python exceptions are
modelled with the Except monad; Python dict values that can be null or of
mixed type are modelled by the PyVal type.  Numeric scores use rationals:
the only claims phrased about exact float behaviour concern values (such
as 0.1 * 10 == 1.0) on which rational and IEEE double semantics agree.
-/

/-- Python runtime errors that the modelled code can raise. -/
inductive PyErr : Type
  | typeError
  | valueError
  | zeroDivisionError
  | attributeError
  | keyError
  | notFittedError
  | exception
  | netError
  | parseError
deriving DecidableEq

/-- A Python value as stored in the loosely-typed dicts that flow through
the pipeline: None, an int, a str, or the empty dict that some .get
chains use as a default. -/
inductive PyVal : Type
  | none
  | int (n : ℤ)
  | str (s : String)
  | emptyDict
deriving DecidableEq

namespace Difflib

/-!
Embedding of difflib.SequenceMatcher as used by utils.similar:
constructed with isjunk=None and autojunk=True (the defaults), and
consumed only through ratio().  Since isjunk is None the bjunk set is
empty, so isbjunk is constantly false; autojunk removes "popular"
elements from b2j when len(b) >= 200.
-/

variable {α : Type} [DecidableEq α]

/-- Ascending list of positions of c in b (the entry b2j[c] before the
autojunk purge). -/
def positionsIn (b : List α) (c : α) : List ℕ :=
  (List.range b.length).filter (fun j => decide (b[j]? = some c))

/-- The autojunk popularity threshold ntest = len(b) // 100 + 1. -/
def popularLimit (b : List α) : ℕ := b.length / 100 + 1

/-- An element is popular (purged from b2j) when len(b) >= 200 and it
occurs more than ntest times. -/
def isPopular (b : List α) (c : α) : Bool :=
  decide (200 ≤ b.length) && decide (popularLimit b < (positionsIn b c).length)

/-- b2j after the autojunk purge: popular elements map to no positions. -/
def b2jOf (b : List α) (c : α) : List ℕ :=
  if isPopular b c then [] else positionsIn b c

/-- bjunk is empty because the matcher is built with isjunk=None. -/
def isbjunk (_ : α) : Bool := false

/-- The guard of an extension loop step: both indices in range, the
b-side element has the junk status of the current phase, and the two
elements are equal. -/
def matchAt (a b : List α) (junkPhase : Bool) (ia jb : ℕ) : Bool :=
  match a[ia]?, b[jb]? with
  | some x, some y => (isbjunk y == junkPhase) && decide (x = y)
  | _, _ => false

/-- The inner loop of find_longest_match over the candidate positions j
of a[i] in b: j < blo is skipped (continue), j >= bhi stops the scan
(break, the position lists are ascending), otherwise
k = j2len.get(j-1, 0) + 1 is recorded in the new row and the best block
is updated when k > bestsize. -/
def scanJs (prev : ℕ → ℕ) (i blo bhi : ℕ) :
    List ℕ → (ℕ → ℕ) → ℕ × ℕ × ℕ → (ℕ → ℕ) × (ℕ × ℕ × ℕ)
  | [], acc, best => (acc, best)
  | j :: js, acc, best =>
    if j < blo then scanJs prev i blo bhi js acc best
    else if bhi ≤ j then (acc, best)
    else
      let k := (if j = 0 then 0 else prev (j - 1)) + 1
      let acc' : ℕ → ℕ := fun x => if x = j then k else acc x
      let best' := if best.2.2 < k then (i + 1 - k, j + 1 - k, k) else best
      scanJs prev i blo bhi js acc' best'

/-- The outer loop of find_longest_match over i in range(alo, ahi); each
iteration rebuilds the j2len row from the previous one. -/
def dpOuter (a : List α) (b2 : α → List ℕ) (blo bhi : ℕ) :
    List ℕ → (ℕ → ℕ) → ℕ × ℕ × ℕ → ℕ × ℕ × ℕ
  | [], _, best => best
  | i :: is, prev, best =>
    match a[i]? with
    | none => dpOuter a b2 blo bhi is (fun _ => 0) best
    | some c =>
      let s := scanJs prev i blo bhi (b2 c) (fun _ => 0) best
      dpOuter a b2 blo bhi is s.1 s.2

/-- A backward extension loop of find_longest_match (junkPhase false for
the non-junk loop, true for the junk loop):
while besti > alo and bestj > blo and (junk status) and
a[besti-1] == b[bestj-1], move the block one step left. -/
def extendLow (a b : List α) (alo blo : ℕ) (junkPhase : Bool) :
    ℕ → ℕ → ℕ → ℕ × ℕ × ℕ
  | 0, bj, sz => (0, bj, sz)
  | bi + 1, bj, sz =>
    if decide (alo < bi + 1) && decide (blo < bj) &&
        matchAt a b junkPhase bi (bj - 1) then
      extendLow a b alo blo junkPhase bi (bj - 1) (sz + 1)
    else (bi + 1, bj, sz)

/-- A forward extension loop of find_longest_match:
while besti+bestsize < ahi and bestj+bestsize < bhi and (junk status)
and a[besti+bestsize] == b[bestj+bestsize], grow the block; the fuel
argument dominates the number of iterations (each one raises bi + sz,
which the guard bounds by ahi). -/
def extendHigh (a b : List α) (ahi bhi : ℕ) (junkPhase : Bool) :
    ℕ → ℕ → ℕ → ℕ → ℕ
  | 0, _, _, sz => sz
  | fuel + 1, bi, bj, sz =>
    if decide (bi + sz < ahi) && decide (bj + sz < bhi) &&
        matchAt a b junkPhase (bi + sz) (bj + sz) then
      extendHigh a b ahi bhi junkPhase fuel bi bj (sz + 1)
    else sz

/-- find_longest_match(alo, ahi, blo, bhi): the dynamic-programming scan
followed by the two non-junk extension loops and the two junk extension
loops (no-ops here since bjunk is empty). -/
def findLongestMatch (a b : List α) (b2 : α → List ℕ) (alo ahi blo bhi : ℕ) :
    ℕ × ℕ × ℕ :=
  let d := dpOuter a b2 blo bhi (List.range' alo (ahi - alo)) (fun _ => 0) (alo, blo, 0)
  let e1 := extendLow a b alo blo false d.1 d.2.1 d.2.2
  let s2 := extendHigh a b ahi bhi false (ahi + bhi) e1.1 e1.2.1 e1.2.2
  let e3 := extendLow a b alo blo true e1.1 e1.2.1 s2
  let s4 := extendHigh a b ahi bhi true (ahi + bhi) e3.1 e3.2.1 e3.2.2
  (e3.1, e3.2.1, s4)

/-- Total size of the matching blocks produced by the recursive
descent of get_matching_blocks (the sort and the merging of adjacent
blocks there do not change the total, which is all ratio() consumes).
The fuel bounds the recursion depth; ahi - alo suffices because each
sub-range is strictly shorter. -/
def mtFuel (a b : List α) (b2 : α → List ℕ) :
    ℕ → ℕ → ℕ → ℕ → ℕ → ℕ
  | 0, _, _, _, _ => 0
  | fuel + 1, alo, ahi, blo, bhi =>
    let m := findLongestMatch a b b2 alo ahi blo bhi
    let i := m.1
    let j := m.2.1
    let k := m.2.2
    if k = 0 then 0
    else
      k + (if alo < i ∧ blo < j then mtFuel a b b2 fuel alo i blo j else 0)
        + (if i + k < ahi ∧ j + k < bhi then mtFuel a b b2 fuel (i + k) ahi (j + k) bhi else 0)

/-- Total matched size over the whole of a and b. -/
def matchesTotal (a b : List α) : ℕ :=
  mtFuel a b (b2jOf b) a.length 0 a.length 0 b.length

/-- ratio() = 2.0 * matches / (len(a) + len(b)), and 1.0 when both
sequences are empty. -/
def smRatio (a b : List α) : ℚ :=
  if a.length + b.length = 0 then 1
  else 2 * (matchesTotal a b : ℚ) / ((a.length : ℚ) + (b.length : ℚ))

end Difflib

/-- utils.similar: SequenceMatcher(None, a.lower(), b.lower()).ratio().
Python str.lower is modelled per-character with Char.toLower (the
strings handled by the pipeline and in the claims are ASCII). -/
def similar (a b : String) : ℚ :=
  Difflib.smRatio (a.data.map Char.toLower) (b.data.map Char.toLower)

/-- a.lower() on a loosely-typed value: only str has the attribute;
None (and any non-string) raises AttributeError. -/
def pyAsStr : PyVal → Except PyErr String
  | .str s => .ok s
  | _ => .error .attributeError

/-- utils.similar applied to raw dict values as the enrichment code
does: the .lower() calls fail on non-strings before any matching. -/
def similarPy (a b : PyVal) : Except PyErr ℚ :=
  match pyAsStr a with
  | .error e => .error e
  | .ok x =>
    match pyAsStr b with
    | .error e => .error e
    | .ok y => .ok (similar x y)

/-- NormalizedRecord: the seven-field record produced by the semantic
scholar adapter and the enrichment fallback. -/
structure NRec where
  title : PyVal
  url : PyVal
  year : PyVal
  venue : PyVal
  authors : PyVal
  citations : PyVal
  abstract : PyVal
deriving DecidableEq

/-- utils.is_duplicate: any(similar(gs_title, p["title"]) >= threshold
for p in sem_results) with the left-to-right short-circuit evaluation
of the generator; an exception in similar propagates. -/
def is_duplicate (gs_title : PyVal) (sem_results : List NRec) (threshold : ℚ) :
    Except PyErr Bool :=
  match sem_results with
  | [] => .ok false
  | r :: rs =>
    match similarPy gs_title r.title with
    | .error e => .error e
    | .ok s => if threshold ≤ s then .ok true else is_duplicate gs_title rs threshold

/-! Ranking engine: paper_ranker.py (top-level) and
src/research_assistant/ranking/paper_ranker.py (packaged).  The two
files differ only inside get_paper_vectors; the scoring loop and the
sort are identical.  The sentence-embedding model and the TF-IDF
numeric outputs, as well as np.log1p, are supplied by an oracle. -/

structure Paper where
  title : Option String
  abstract : Option String
  citations : Option PyVal
  year : Option PyVal
deriving DecidableEq

/-- Numeric black boxes of the ranking engine: np.log1p and, for each
paper index, the cosine similarity of the BERT embeddings and the
TF-IDF dot product with the query. -/
structure RankOracle where
  log1p : ℚ → ℚ
  semSim : ℕ → ℚ
  lexSim : ℕ → ℚ

/-- A paper dictionary after the scoring loop added the four scores
(paper_copy keeps the original fields). -/
structure Scored where
  paper : Paper
  similarity_score : ℚ
  citation_score : ℚ
  recency_score : ℚ
  relevance_score : ℚ
deriving DecidableEq

/-- citations / 10 in Python: int division is fine, while None, a str
(including the adapters empty value "") or a dict raises TypeError. -/
def pyDivTen : PyVal → Except PyErr ℚ
  | .int n => .ok ((n : ℚ) / 10)
  | _ => .error .typeError

def digitsToNat (l : List Char) : ℕ :=
  l.foldl (fun acc c => acc * 10 + (c.toNat - 48)) 0

/-- Python str.strip() whitespace, modelled at the character level (the
Lean String.trim is not used because the claims are settled by
evaluation). -/
def isPySpace (c : Char) : Bool :=
  c == ' ' || c == '\t' || c == '\n' || c == '\r' || c == Char.ofNat 11 || c == Char.ofNat 12

def pyStripChars (l : List Char) : List Char :=
  ((l.dropWhile isPySpace).reverse.dropWhile isPySpace).reverse

def pyStrip (s : String) : String := ⟨pyStripChars s.data⟩

/-- Python int(s) on a string: optional surrounding whitespace, an
optional sign, then at least one digit; anything else raises. -/
def parsePyInt (s : String) : Option ℤ :=
  match pyStripChars s.data with
  | '-' :: rest =>
    if !rest.isEmpty && rest.all Char.isDigit then some (-(digitsToNat rest : ℤ))
    else Option.none
  | '+' :: rest =>
    if !rest.isEmpty && rest.all Char.isDigit then some ((digitsToNat rest : ℤ))
    else Option.none
  | l =>
    if !l.isEmpty && l.all Char.isDigit then some ((digitsToNat l : ℤ))
    else Option.none

/-- Python int(v): ints pass through, parseable strings parse, an
unparseable string raises ValueError, None or a dict raises TypeError. -/
def pyInt : PyVal → Except PyErr ℤ
  | .int n => .ok n
  | .str s =>
    match parsePyInt s with
    | some n => .ok n
    | Option.none => .error .valueError
  | .none => .error .typeError
  | .emptyDict => .error .typeError

/-- The body of the scoring loop of rank_papers_by_relevance for the
paper at index i (identical in both variants):
similarity_score = 0.75 * semantic + 0.25 * lexical,
citation_score = log1p(paper.get("citations", 0) / 10),
recency_score = 0 if year == "" else 1 / (1 + 0.1 * (2025 - int(year))),
relevance_score = 0.6 * similarity + 0.25 * citation + 0.15 * recency. -/
def recencyOf (p : Paper) : Except PyErr ℚ :=
  let yval := (p.year).getD .none
  if yval = .str "" then .ok 0
  else
    match pyInt yval with
    | .error e => .error e
    | .ok y =>
      let d : ℚ := 1 + ((2025 - y : ℤ) : ℚ) / 10
      if d = 0 then .error .zeroDivisionError else .ok (1 / d)

def scoreStep (o : RankOracle) (i : ℕ) (p : Paper) : Except PyErr Scored :=
  let similarity : ℚ := (3 / 4) * o.semSim i + (1 / 4) * o.lexSim i
  match pyDivTen ((p.citations).getD (.int 0)) with
  | .error e => .error e
  | .ok citBase =>
    let cit : ℚ := o.log1p citBase
    match recencyOf p with
    | .error e => .error e
    | .ok recency =>
      .ok { paper := p
            similarity_score := similarity
            citation_score := cit
            recency_score := recency
            relevance_score := (3 / 5) * similarity + (1 / 4) * cit + (3 / 20) * recency }

/-- The scoring loop: scores papers left to right, the first exception
aborting the loop as in Python. -/
def scoreAll (o : RankOracle) : ℕ → List Paper → Except PyErr (List Scored)
  | _, [] => .ok []
  | i, p :: ps =>
    match scoreStep o i p with
    | .error e => .error e
    | .ok s =>
      match scoreAll o (i + 1) ps with
      | .error e => .error e
      | .ok rest => .ok (s :: rest)

/-- The sklearn TfidfVectorizer fitted/unfitted state; transform on an
unfitted vectorizer raises NotFittedError. -/
structure TfidfState where
  fitted : Bool
deriving DecidableEq

def tfidfNew : TfidfState := ⟨false⟩

def tfidfFit (_v : TfidfState) (_docs : List String) : TfidfState := ⟨true⟩

def tfidfTransform (v : TfidfState) (_docs : List String) : Except PyErr Unit :=
  if v.fitted then .ok () else .error .notFittedError

/-- The corpus entry for one paper: f-string of title and abstract. -/
def paperText (p : Paper) : String :=
  (p.title.getD "") ++ ". " ++ (p.abstract.getD "")

/-- get_paper_vectors of the top-level src/paper_ranker.py: the query is
transformed BEFORE the vectorizer is fitted on the corpus. -/
def get_paper_vectors_root (papers : List Paper) (query : String) : Except PyErr Unit :=
  match tfidfTransform tfidfNew [query] with
  | .error e => .error e
  | .ok _ =>
    tfidfTransform (tfidfFit tfidfNew (papers.map paperText)) (papers.map paperText)

/-- get_paper_vectors of the packaged ranking module: fit on the corpus
first, then transform the query and the corpus. -/
def get_paper_vectors_pkg (papers : List Paper) (query : String) : Except PyErr Unit :=
  let v1 := tfidfFit tfidfNew (papers.map paperText)
  match tfidfTransform v1 [query] with
  | .error e => .error e
  | .ok _ => tfidfTransform v1 (papers.map paperText)

/-- The descending comparison used by
ranked_papers.sort(key=lambda x: x["relevance_score"], reverse=True). -/
def relDesc (x y : Scored) : Prop := y.relevance_score ≤ x.relevance_score

instance : DecidableRel relDesc :=
  fun x y => inferInstanceAs (Decidable (y.relevance_score ≤ x.relevance_score))

instance : IsTotal Scored relDesc :=
  ⟨fun x y => (le_total y.relevance_score x.relevance_score).imp id id⟩

instance : IsTrans Scored relDesc :=
  ⟨fun _ _ _ hxy hyz => le_trans hyz hxy⟩

/-- Python list.sort is a stable sort; with a key and reverse=True it
is THE stable descending sort, which (by uniqueness of stable sorting)
insertionSort over relDesc implements. -/
def pySortDesc (l : List Scored) : List Scored := List.insertionSort relDesc l

/-- rank_papers_by_relevance of the packaged ranking module. -/
def rank_papers_by_relevance_pkg (o : RankOracle) (papers : List Paper) (query : String) :
    Except PyErr (List Scored) :=
  if papers.isEmpty then .ok []
  else
    match get_paper_vectors_pkg papers query with
    | .error e => .error e
    | .ok _ =>
      match scoreAll o 0 papers with
      | .error e => .error e
      | .ok scored => .ok (pySortDesc scored)

/-- rank_papers_by_relevance of the top-level src/paper_ranker.py; the
only difference is the get_paper_vectors variant. -/
def rank_papers_by_relevance_root (o : RankOracle) (papers : List Paper) (query : String) :
    Except PyErr (List Scored) :=
  if papers.isEmpty then .ok []
  else
    match get_paper_vectors_root papers query with
    | .error e => .error e
    | .ok _ =>
      match scoreAll o 0 papers with
      | .error e => .error e
      | .ok scored => .ok (pySortDesc scored)

/-! Source adapter: SearchSemanticScholar.get_semantic_scholar_results. -/

instance {ε β : Type} [DecidableEq ε] [DecidableEq β] : DecidableEq (Except ε β) := fun x y =>
  match x, y with
  | .ok a, .ok b =>
    if h : a = b then isTrue (by rw [h])
    else isFalse (by intro hc; injection hc; contradiction)
  | .error e, .error f =>
    if h : e = f then isTrue (by rw [h])
    else isFalse (by intro hc; injection hc; contradiction)
  | .ok _, .error _ => isFalse (by intro hc; exact Except.noConfusion hc)
  | .error _, .ok _ => isFalse (by intro hc; exact Except.noConfusion hc)

structure RawAuthor where
  name : Option String
deriving DecidableEq

/-- One element of the "data" array of the semantic scholar response;
absent keys are None here, present-but-null keys hold PyVal.none. -/
structure RawSem where
  title : Option PyVal
  url : Option PyVal
  year : Option PyVal
  venue : Option PyVal
  authors : List RawAuthor
  citationCount : Option PyVal
  abstract : Option PyVal
deriving DecidableEq

/-- A transport-level response: HTTP status plus the parsed "data"
array (or a parse error for malformed JSON). -/
structure SemResp where
  status : ℕ
  body : Except PyErr (List RawSem)
deriving DecidableEq

/-- The per-paper normalization of get_semantic_scholar_results:
.get(key, "") for the scalar fields and a comma join of author names. -/
def normalizeSem (r : RawSem) : NRec :=
  { title := r.title.getD (.str "")
    url := r.url.getD (.str "")
    year := r.year.getD (.str "")
    venue := r.venue.getD (.str "")
    authors := .str (String.intercalate ", " (r.authors.map (fun a => a.name.getD "")))
    citations := r.citationCount.getD (.str "")
    abstract := r.abstract.getD (.str "") }

/-- get_semantic_scholar_results: the whole body sits in a
try/except Exception that returns []; raise_for_status raises for
4xx/5xx statuses. -/
def get_semantic_scholar_results (transport : Except PyErr SemResp) : List NRec :=
  match transport with
  | .error _ => []
  | .ok resp =>
    if 400 ≤ resp.status then []
    else
      match resp.body with
      | .error _ => []
      | .ok data => data.map normalizeSem

/-! Source adapter: SearchArxiv.get_arxiv_results (no try/except). -/

structure ArxivEntry where
  title : Option String
  idUrl : Option String
deriving DecidableEq

structure ArxivResp where
  status : ℕ
  body : Except PyErr (List ArxivEntry)
deriving DecidableEq

structure ArxivRec where
  title : String
  link : String
deriving DecidableEq

/-- get_arxiv_results: a transport failure propagates (no handler), a
non-200 status raises Exception("Failed to retrieve data from ArXiv
API"), malformed XML raises in ET.fromstring, and an entry missing the
title or id element makes .text fail with AttributeError. -/
def arxivExtract : List ArxivEntry → Except PyErr (List ArxivRec)
  | [] => .ok []
  | e :: es =>
    match e.title, e.idUrl with
    | some t, some l =>
      match arxivExtract es with
      | .error err => .error err
      | .ok rest => .ok ({ title := pyStrip t, link := pyStrip l } :: rest)
    | _, _ => .error .attributeError

def get_arxiv_results (transport : Except PyErr ArxivResp) :
    Except PyErr (List ArxivRec) :=
  match transport with
  | .error e => .error e
  | .ok resp =>
    if resp.status ≠ 200 then .error .exception
    else
      match resp.body with
      | .error e => .error e
      | .ok entries => arxivExtract entries

/-! Enrichment engine: SearchGoogleScholar.py. -/

/-- One raw Google Scholar organic result, flattened to the paths the
enrichment fallback reads (nested .get chains with defaults). -/
structure GsResult where
  title : Option PyVal
  link : Option PyVal
  pubSummary : Option PyVal
  citedByTotal : Option PyVal
  snippet : Option PyVal
deriving DecidableEq

/-- The fallback NormalizedRecord built from the secondary records own
fields when the primary lookup has no good match. -/
def gsFallback (g : GsResult) : NRec :=
  { title := g.title.getD (.str "")
    url := g.link.getD (.str "")
    year := .str ""
    venue := .str ""
    authors := g.pubSummary.getD (.str "")
    citations := g.citedByTotal.getD (.str "")
    abstract := g.snippet.getD (.str "") }

/-- The keyword used when enrich_with_semantic_scholar calls
get_semantic_scholar_results: the top-level file passes limit=1, the
packaged one passes max_results=1. -/
inductive SemCallKw : Type
  | limit (n : ℕ)
  | max_results (n : ℕ)
deriving DecidableEq

/-- Python call semantics for get_semantic_scholar_results(query, kw):
its signature is (query, max_results=10), so the keyword limit raises
TypeError (unexpected keyword argument) before any request is made;
max_results runs the lookup, which itself never raises (it returns []
on failure, see get_semantic_scholar_results). -/
def callSemScholarLookup (lookup : PyVal → ℕ → List NRec) :
    SemCallKw → PyVal → Except PyErr (List NRec)
  | .limit _, _ => .error .typeError
  | .max_results n, q => .ok (lookup q n)

/-- enrich_with_semantic_scholar: look the secondary title up in the
primary source; adopt the top result when its title is similar enough
(>= 0.9), otherwise build the fallback from the secondary fields.  The
random pre-lookup sleep has no observable effect here. -/
def enrich_with_semantic_scholar (kw : SemCallKw) (lookup : PyVal → ℕ → List NRec)
    (g : GsResult) : Except PyErr NRec :=
  let queryTitle := g.title.getD (.str "")
  match callSemScholarLookup lookup kw queryTitle with
  | .error e => .error e
  | .ok semResults =>
    match semResults with
    | top :: _ =>
      match similarPy top.title queryTitle with
      | .error e => .error e
      | .ok s => if 9 / 10 ≤ s then .ok top else .ok (gsFallback g)
    | [] => .ok (gsFallback g)

/-! ThreadPoolExecutor.map model: each task i computes
f(unique[i]) into its own slot; a schedule lists the slots in
completion order; the results are then read back in index order, and
the first stored exception (in index order) propagates, exactly as
iterating executor.map results does. -/

def fillSlots (f : GsResult → Except PyErr NRec) (l : List GsResult) :
    List ℕ → List (Option (Except PyErr NRec)) → List (Option (Except PyErr NRec))
  | [], slots => slots
  | i :: rest, slots => fillSlots f l rest (slots.set i ((l[i]?).map f))

def collectSlots : List (Option (Except PyErr NRec)) → Except PyErr (List NRec)
  | [] => .ok []
  | Option.none :: _ => .error .exception
  | some (.error e) :: _ => .error e
  | some (.ok r) :: rest =>
    match collectSlots rest with
    | .error e => .error e
    | .ok tail => .ok (r :: tail)

def executorMap (f : GsResult → Except PyErr NRec) (l : List GsResult)
    (sched : List ℕ) : Except PyErr (List NRec) :=
  collectSlots (fillSlots f l sched (List.replicate l.length Option.none))

/-- The deduplication list comprehension of enrich_gs_results_parallel,
evaluated left to right; passing sem_results=None makes any() iterate
None and raise TypeError at the first candidate. -/
def filterNonDup (sem : Option (List NRec)) : List GsResult → Except PyErr (List GsResult)
  | [] => .ok []
  | g :: gs =>
    match (match sem with
           | some l => is_duplicate (g.title.getD (.str "")) l (9 / 10)
           | Option.none => Except.error PyErr.typeError) with
    | .error e => .error e
    | .ok d =>
      match filterNonDup sem gs with
      | .error e => .error e
      | .ok rest => if d then .ok rest else .ok (g :: rest)

/-- enrich_gs_results_parallel: filter duplicates, then enrich the
survivors through the executor; sched is the completion order of the
worker pool. -/
def enrich_gs_results_parallel (kw : SemCallKw) (lookup : PyVal → ℕ → List NRec)
    (gs_raw : List GsResult) (sem_results : Option (List NRec)) (sched : List ℕ) :
    Except PyErr (List NRec) :=
  match filterNonDup sem_results gs_raw with
  | .error e => .error e
  | .ok unique => executorMap (enrich_with_semantic_scholar kw lookup) unique sched

/-- get_googlescholar_results: the serpapi search plus enrichment, all
inside try/except Exception that logs and returns []. -/
def get_googlescholar_results (searchTransport : Except PyErr (Option (List GsResult)))
    (kw : SemCallKw) (lookup : PyVal → ℕ → List NRec)
    (sem_results : Option (List NRec)) (sched : List ℕ) : List NRec :=
  match searchTransport with
  | .error _ => []
  | .ok organic =>
    match enrich_gs_results_parallel kw lookup (organic.getD []) sem_results sched with
    | .error _ => []
    | .ok l => l

/-! Paginated adapter: lit_review_engine.googlescholar_results. -/

/-- One raw organic result of the paginated engine; fields read through
bare indexing are mandatory, the rest come from .get chains or
try/except int conversions. -/
structure PagRaw where
  position : Option ℤ
  title : Option String
  pubSummary : Option String
  result_id : Option String
  link : Option PyVal
  rtype : Option PyVal
  snippet : Option PyVal
  fileTitle : Option PyVal
  fileLink : Option PyVal
  fileFormat : Option PyVal
  citedByTotal : Option PyVal
  citedById : Option PyVal
  citedByLink : Option PyVal
  versionsTotal : Option PyVal
  versionsLink : Option PyVal
  versionsId : Option PyVal
deriving DecidableEq

/-- The dictionary appended per organic result. -/
structure PagRec where
  page_number : ℤ
  position : ℤ
  result_type : PyVal
  title : String
  link : PyVal
  result_id : String
  publication_info_summary : String
  snippet : PyVal
  cited_by_count : Option ℤ
  cited_by_link : PyVal
  cited_by_id : PyVal
  total_versions : Option ℤ
  all_versions_link : PyVal
  all_versions_id : PyVal
  file_format : PyVal
  file_title : PyVal
  file_link : PyVal
deriving DecidableEq

/-- One page returned by search.get_dict(): the organic_results array
(mandatory), and the serpapi_pagination metadata with its current page
number and the presence of a "next" link. -/
structure SerpPage where
  organic : Option (List PagRaw)
  pagPresent : Bool
  pagCurrent : Option ℤ
  pagNext : Bool
deriving DecidableEq

/-- try: int(x) except: None, with the inner KeyError also caught. -/
def tryPyInt (v : Option PyVal) : Option ℤ :=
  match v with
  | Option.none => Option.none
  | some pv => (pyInt pv).toOption

/-- Building the appended dictionary for one organic result; the bare
dict indexings raise KeyError when absent. -/
def extractPagRec (p : SerpPage) (r : PagRaw) : Except PyErr PagRec :=
  match r.position, r.title, r.pubSummary, r.result_id with
  | some pos, some t, some summ, some rid =>
    (match p.pagPresent, p.pagCurrent with
     | true, some current =>
       Except.ok
         { page_number := current
           position := pos + 1
           result_type := r.rtype.getD .none
           title := t
           link := r.link.getD .none
           result_id := rid
           publication_info_summary := summ
           snippet := r.snippet.getD .none
           cited_by_count := tryPyInt r.citedByTotal
           cited_by_link := r.citedByLink.getD .emptyDict
           cited_by_id := r.citedById.getD .emptyDict
           total_versions := tryPyInt r.versionsTotal
           all_versions_link := r.versionsLink.getD .emptyDict
           all_versions_id := r.versionsId.getD .emptyDict
           file_format := r.fileFormat.getD .none
           file_title := r.fileTitle.getD .none
           file_link := r.fileLink.getD .none }
     | _, _ => Except.error PyErr.keyError)
  | _, _, _, _ => Except.error PyErr.keyError

/-- The while loop of googlescholar_results over the successive pages
the source would serve: append every record of the current page, then
fetch the next page exactly when the pagination metadata has a "next"
link and the accumulated count is still below the hardcoded 10. -/
def pagExtractAll (p : SerpPage) : List PagRaw → Except PyErr (List PagRec)
  | [] => .ok []
  | r :: rs =>
    match extractPagRec p r with
    | .error e => .error e
    | .ok rec1 =>
      match pagExtractAll p rs with
      | .error e => .error e
      | .ok rest => .ok (rec1 :: rest)

def gsLoop : List SerpPage → ℕ → List PagRec → Except PyErr (List PagRec)
  | [], _, acc => .ok acc
  | p :: rest, count, acc =>
    match p.organic with
    | Option.none => .error .keyError
    | some raw =>
      match pagExtractAll p raw with
      | .error e => .error e
      | .ok recs =>
        if (p.pagPresent && p.pagNext) && decide (count + recs.length < 10) then
          gsLoop rest (count + recs.length) (acc ++ recs)
        else .ok (acc ++ recs)

def googlescholar_results (pages : List SerpPage) : Except PyErr (List PagRec) :=
  gsLoop pages 0 []

/-! Specification vocabulary used only in theorem statements. -/

/-- The pure duplicate predicate under well-formed (string) titles. -/
def pyValStr : PyVal → String
  | .str s => s
  | _ => ""

def dupPure (g : GsResult) (sem : List NRec) : Bool :=
  sem.any (fun r => decide (9 / 10 ≤ similar (pyValStr (g.title.getD (.str ""))) (pyValStr r.title)))

/-- Well-formed secondary record: its title is absent or a string. -/
def wfGsTitle (g : GsResult) : Prop :=
  g.title = Option.none ∨ ∃ s, g.title = some (PyVal.str s)

/-- Well-formed primary record: its title is a string. -/
def wfSemTitle (r : NRec) : Prop := ∃ s, r.title = PyVal.str s

/-- Number of organic results on a page. -/
def pageLen (p : SerpPage) : ℕ := (p.organic.getD []).length

/-- The prefix of pages the paginated loop processes: always the first
page, and then the next page exactly while the current page reports a
next link and fewer than 10 results have accumulated. -/
def pagesTaken : List SerpPage → ℕ → List SerpPage
  | [], _ => []
  | p :: rest, count =>
    p :: (if (p.pagPresent && p.pagNext) && decide (count + pageLen p < 10) then
      pagesTaken rest (count + pageLen p) else [])

def wfPagRaw (r : PagRaw) : Prop :=
  r.position.isSome ∧ r.title.isSome ∧ r.pubSummary.isSome ∧ r.result_id.isSome

def wfPage (p : SerpPage) : Prop :=
  p.organic.isSome ∧ p.pagPresent = true ∧ p.pagCurrent.isSome ∧
    ∀ r ∈ p.organic.getD [], wfPagRaw r

instance (r : PagRaw) : Decidable (wfPagRaw r) := by
  unfold wfPagRaw
  infer_instance

instance (p : SerpPage) : Decidable (wfPage p) := by
  unfold wfPage
  infer_instance

/-- Total extraction under well-formedness (getD mirrors extractPagRec
on well-formed input). -/
def extractPagRecD (p : SerpPage) (r : PagRaw) : PagRec :=
  { page_number := p.pagCurrent.getD 0
    position := (r.position.getD 0) + 1
    result_type := r.rtype.getD .none
    title := r.title.getD ""
    link := r.link.getD .none
    result_id := r.result_id.getD ""
    publication_info_summary := r.pubSummary.getD ""
    snippet := r.snippet.getD .none
    cited_by_count := tryPyInt r.citedByTotal
    cited_by_link := r.citedByLink.getD .emptyDict
    cited_by_id := r.citedById.getD .emptyDict
    total_versions := tryPyInt r.versionsTotal
    all_versions_link := r.versionsLink.getD .emptyDict
    all_versions_id := r.versionsId.getD .emptyDict
    file_format := r.fileFormat.getD .none
    file_title := r.fileTitle.getD .none
    file_link := r.fileLink.getD .none }

def pageRecsD (p : SerpPage) : List PagRec :=
  (p.organic.getD []).map (extractPagRecD p)

/-! Concrete fixtures used by the closed theorems below. -/

def oracle0 : RankOracle := { log1p := id, semSim := fun _ => 0, lexSim := fun _ => 0 }

def paperEmptyCitations : Paper :=
  { title := some "t", abstract := some "", citations := some (.str ""), year := some (.str "2020") }

def paperYear2026 : Paper :=
  { title := some "t", abstract := some "", citations := some (.int 0), year := some (.str "2026") }

def paperYearND : Paper :=
  { title := some "t", abstract := some "", citations := some (.int 0), year := some (.str "n.d.") }

def paperEmptyYear : Paper :=
  { title := some "t", abstract := some "", citations := some (.int 0), year := some (.str "") }

def paperPlain : Paper :=
  { title := some "a", abstract := some "b", citations := some (.int 4), year := some (.str "2020") }

/-- The scores the oracle0 ranking gives paperPlain: similarity 0,
citation log1p(4/10) = 2/5 under the identity log1p oracle, recency
1/(1 + 0.1*5) = 2/3, relevance 0.25*(2/5) + 0.15*(2/3) = 1/5. -/
def scoredPlain : Scored :=
  { paper := paperPlain, similarity_score := 0, citation_score := 2 / 5,
    recency_score := 2 / 3, relevance_score := 1 / 5 }

def gsA : GsResult :=
  { title := some (.str "A"), link := Option.none, pubSummary := Option.none,
    citedByTotal := Option.none, snippet := Option.none }

def gsB : GsResult :=
  { title := some (.str "B"), link := Option.none, pubSummary := Option.none,
    citedByTotal := Option.none, snippet := Option.none }

def gsNovel : GsResult :=
  { title := some (.str "Novel X Method"), link := Option.none, pubSummary := Option.none,
    citedByTotal := Option.none, snippet := Option.none }

/-- A primary record whose title is null; similar(None, ...) raises. -/
def badTitleRec : NRec :=
  { title := .none, url := .str "", year := .str "", venue := .str "",
    authors := .str "", citations := .str "", abstract := .str "" }

def lookupEmpty : PyVal → ℕ → List NRec := fun _ _ => []

def lookupBad : PyVal → ℕ → List NRec :=
  fun q _ => if q = .str "B" then [badTitleRec] else []

def pagRaw0 : PagRaw :=
  { position := some 1, title := some "t", pubSummary := some "s", result_id := some "r",
    link := Option.none, rtype := Option.none, snippet := Option.none,
    fileTitle := Option.none, fileLink := Option.none, fileFormat := Option.none,
    citedByTotal := Option.none, citedById := Option.none, citedByLink := Option.none,
    versionsTotal := Option.none, versionsLink := Option.none, versionsId := Option.none }

def page12 : SerpPage :=
  { organic := some (List.replicate 12 pagRaw0), pagPresent := true,
    pagCurrent := some 1, pagNext := true }

def page5 : SerpPage :=
  { organic := some (List.replicate 5 pagRaw0), pagPresent := true,
    pagCurrent := some 2, pagNext := false }

/-- The scores the oracle0 ranking gives paperYear2026: recency
1 / (1 - 0.1) = 10/9 and relevance 0.15 * 10/9 = 1/6. -/
def scored2026 : Scored :=
  { paper := paperYear2026, similarity_score := 0, citation_score := 0,
    recency_score := 10 / 9, relevance_score := 1 / 6 }

/-- The sequential left-to-right enrichment of a list, which the
executor model below is proved to implement whenever the schedule
covers every task. -/
def mapEnrich (f : GsResult → Except PyErr NRec) : List GsResult → Except PyErr (List NRec)
  | [] => .ok []
  | g :: gs =>
    match f g with
    | .error e => .error e
    | .ok r =>
      match mapEnrich f gs with
      | .error e => .error e
      | .ok rest => .ok (r :: rest)

namespace Difflib

variable {α : Type} [DecidableEq α]

/-- Bounds invariant for the best block during find_longest_match over
the window a[alo:ahi] x b[blo:bhi]. -/
abbrev BestInv (alo ahi blo bhi : ℕ) (t : ℕ × ℕ × ℕ) : Prop :=
  alo ≤ t.1 ∧ blo ≤ t.2.1 ∧ t.1 + t.2.2 ≤ ahi ∧ t.2.1 + t.2.2 ≤ bhi

/-- Bounds invariant for a j2len row just before processing outer index
i: every stored chain fits between blo and its key, and is no longer
than the number of processed indices. -/
abbrev RowInv (alo blo bhi i : ℕ) (f : ℕ → ℕ) : Prop :=
  ∀ j, f j ≠ 0 → blo ≤ j ∧ j < bhi ∧ f j + blo ≤ j + 1 ∧ f j + alo ≤ i

theorem rowInv_zero (alo blo bhi i : ℕ) : RowInv alo blo bhi i (fun _ => 0) := by
  intro j h
  simp at h

theorem RowInv.mono {alo blo bhi i i' : ℕ} {f : ℕ → ℕ} (h : RowInv alo blo bhi i f)
    (hle : i ≤ i') : RowInv alo blo bhi i' f := by
  intro j hj
  obtain ⟨h1, h2, h3, h4⟩ := h j hj
  exact ⟨h1, h2, h3, le_trans h4 hle⟩

theorem scanJs_inv {alo ahi blo bhi i : ℕ} {prev : ℕ → ℕ}
    (hprev : RowInv alo blo bhi i prev) (hialo : alo ≤ i) (hiahi : i < ahi) :
    ∀ (js : List ℕ) (acc : ℕ → ℕ) (best : ℕ × ℕ × ℕ),
      RowInv alo blo bhi (i + 1) acc → BestInv alo ahi blo bhi best →
      RowInv alo blo bhi (i + 1) (scanJs prev i blo bhi js acc best).1 ∧
        BestInv alo ahi blo bhi (scanJs prev i blo bhi js acc best).2 := by
  intro js
  induction js with
  | nil => intro acc best hacc hbest; exact ⟨hacc, hbest⟩
  | cons j js ih =>
    intro acc best hacc hbest
    by_cases hjlo : j < blo
    · simpa [scanJs, hjlo] using ih acc best hacc hbest
    · by_cases hjhi : bhi ≤ j
      · simpa [scanJs, hjlo, hjhi] using ⟨hacc, hbest⟩
      · have hk : (if j = 0 then 0 else prev (j - 1)) + 1 + blo ≤ j + 1 ∧
            (if j = 0 then 0 else prev (j - 1)) + 1 + alo ≤ i + 1 := by
          by_cases hj0 : j = 0
          · simp only [if_pos hj0]
            omega
          · simp only [if_neg hj0]
            by_cases hp : prev (j - 1) = 0
            · rw [hp]; omega
            · obtain ⟨p1, p2, p3, p4⟩ := hprev (j - 1) hp
              omega
        simp only [scanJs, if_neg hjlo, if_neg hjhi]
        apply ih
        · intro x hx
          by_cases hxj : x = j
          · simp only [if_pos hxj] at hx ⊢
            refine ⟨by omega, by omega, ?_, ?_⟩ <;> omega
          · simp only [if_neg hxj] at hx ⊢
            exact hacc x hx
        · by_cases hupd : best.2.2 < (if j = 0 then 0 else prev (j - 1)) + 1
          · simp only [if_pos hupd]
            refine ⟨?_, ?_, ?_, ?_⟩ <;> (simp; try omega)
          · simpa [if_neg hupd] using hbest

theorem dpOuter_inv (a : List α) (b2 : α → List ℕ) (alo ahi blo bhi : ℕ) :
    ∀ (m s : ℕ) (prev : ℕ → ℕ) (best : ℕ × ℕ × ℕ),
      alo ≤ s → s + m ≤ ahi →
      RowInv alo blo bhi s prev → BestInv alo ahi blo bhi best →
      BestInv alo ahi blo bhi (dpOuter a b2 blo bhi (List.range' s m) prev best) := by
  intro m
  induction m with
  | zero => intro s prev best _ _ _ hbest; simpa [dpOuter] using hbest
  | succ m ih =>
    intro s prev best hs hm hprev hbest
    rw [List.range'_succ]
    cases hget : a[s]? with
    | none =>
      simp only [dpOuter, hget]
      exact ih (s + 1) _ best (by omega) (by omega) (rowInv_zero _ _ _ _) hbest
    | some c =>
      simp only [dpOuter, hget]
      obtain ⟨hrow, hb⟩ := scanJs_inv hprev hs (by omega) (b2 c) (fun _ => 0) best
        (rowInv_zero _ _ _ _) hbest
      exact ih (s + 1) _ _ (by omega) (by omega) hrow hb

theorem extendLow_inv {a b : List α} {alo ahi blo bhi : ℕ} (jp : Bool) :
    ∀ (bi bj sz : ℕ), BestInv alo ahi blo bhi (bi, bj, sz) →
      BestInv alo ahi blo bhi (extendLow a b alo blo jp bi bj sz) := by
  intro bi
  induction bi with
  | zero => intro bj sz h; simpa [extendLow] using h
  | succ bi ih =>
    intro bj sz h
    obtain ⟨h1, h2, h3, h4⟩ := h
    simp only [extendLow]
    split
    · rename_i hcond
      simp only [Bool.and_eq_true, decide_eq_true_eq] at hcond
      apply ih
      simp only [Prod.fst, Prod.snd] at h3 h4
      refine ⟨?_, ?_, ?_, ?_⟩ <;> (simp; try omega)
    · exact ⟨h1, h2, h3, h4⟩

theorem extendHigh_le {a b : List α} {ahi bhi : ℕ} (jp : Bool) :
    ∀ (fuel bi bj sz : ℕ), bi + sz ≤ ahi → bj + sz ≤ bhi →
      bi + extendHigh a b ahi bhi jp fuel bi bj sz ≤ ahi ∧
        bj + extendHigh a b ahi bhi jp fuel bi bj sz ≤ bhi ∧
        sz ≤ extendHigh a b ahi bhi jp fuel bi bj sz := by
  intro fuel
  induction fuel with
  | zero => intro bi bj sz h1 h2; simpa [extendHigh] using ⟨h1, h2⟩
  | succ fuel ih =>
    intro bi bj sz h1 h2
    simp only [extendHigh]
    split
    · rename_i hcond
      simp only [Bool.and_eq_true, decide_eq_true_eq] at hcond
      have := ih bi bj (sz + 1) (by omega) (by omega)
      exact ⟨this.1, this.2.1, by omega⟩
    · exact ⟨h1, h2, le_refl _⟩

theorem findLongestMatch_inv (a b : List α) (b2 : α → List ℕ) {alo ahi blo bhi : ℕ}
    (h1 : alo ≤ ahi) (h2 : blo ≤ bhi) :
    BestInv alo ahi blo bhi (findLongestMatch a b b2 alo ahi blo bhi) := by
  unfold findLongestMatch
  have hd : BestInv alo ahi blo bhi
      (dpOuter a b2 blo bhi (List.range' alo (ahi - alo)) (fun _ => 0) (alo, blo, 0)) :=
    dpOuter_inv a b2 alo ahi blo bhi (ahi - alo) alo _ _ (le_refl _) (by omega)
      (rowInv_zero _ _ _ _)
      ⟨le_refl _, le_refl _, by simpa using h1, by simpa using h2⟩
  set d := dpOuter a b2 blo bhi (List.range' alo (ahi - alo)) (fun _ => 0) (alo, blo, 0) with hdd
  have he1 : BestInv alo ahi blo bhi (extendLow a b alo blo false d.1 d.2.1 d.2.2) :=
    extendLow_inv false d.1 d.2.1 d.2.2 hd
  set e1 := extendLow a b alo blo false d.1 d.2.1 d.2.2 with he1d
  obtain ⟨g1, g2, g3, g4⟩ := he1
  have hs2 := extendHigh_le (a := a) (b := b) false (ahi + bhi) e1.1 e1.2.1 e1.2.2 g3 g4
  set s2 := extendHigh a b ahi bhi false (ahi + bhi) e1.1 e1.2.1 e1.2.2 with hs2d
  have he3 : BestInv alo ahi blo bhi (extendLow a b alo blo true e1.1 e1.2.1 s2) :=
    extendLow_inv true e1.1 e1.2.1 s2 ⟨g1, g2, hs2.1, hs2.2.1⟩
  set e3 := extendLow a b alo blo true e1.1 e1.2.1 s2 with he3d
  obtain ⟨f1, f2, f3, f4⟩ := he3
  have hs4 := extendHigh_le (a := a) (b := b) true (ahi + bhi) e3.1 e3.2.1 e3.2.2 f3 f4
  exact ⟨f1, f2, hs4.1, hs4.2.1⟩

theorem mtFuel_le (a b : List α) (b2 : α → List ℕ) :
    ∀ (fuel alo ahi blo bhi : ℕ), alo ≤ ahi → blo ≤ bhi → ahi ≤ alo + fuel →
      mtFuel a b b2 fuel alo ahi blo bhi + alo ≤ ahi ∧
        mtFuel a b b2 fuel alo ahi blo bhi + blo ≤ bhi := by
  intro fuel
  induction fuel with
  | zero =>
    intro alo ahi blo bhi h1 h2 h3
    constructor <;> simp [mtFuel] <;> omega
  | succ fuel ih =>
    intro alo ahi blo bhi h1 h2 h3
    obtain ⟨g1, g2, g3, g4⟩ := findLongestMatch_inv a b b2 h1 h2
    simp only [mtFuel]
    set m := findLongestMatch a b b2 alo ahi blo bhi with hm
    by_cases hk : m.2.2 = 0
    · simp only [if_pos hk]
      omega
    · have hk1 : 1 ≤ m.2.2 := Nat.pos_of_ne_zero hk
      simp only [if_neg hk]
      have hL : (if alo < m.1 ∧ blo < m.2.1 then mtFuel a b b2 fuel alo m.1 blo m.2.1 else 0)
            + alo ≤ m.1 ∧
          (if alo < m.1 ∧ blo < m.2.1 then mtFuel a b b2 fuel alo m.1 blo m.2.1 else 0)
            + blo ≤ m.2.1 := by
        split
        · rename_i hc
          exact ih alo m.1 blo m.2.1 (le_of_lt hc.1) (le_of_lt hc.2) (by omega)
        · omega
      have hR : (if m.1 + m.2.2 < ahi ∧ m.2.1 + m.2.2 < bhi then
              mtFuel a b b2 fuel (m.1 + m.2.2) ahi (m.2.1 + m.2.2) bhi else 0)
            + (m.1 + m.2.2) ≤ ahi ∧
          (if m.1 + m.2.2 < ahi ∧ m.2.1 + m.2.2 < bhi then
              mtFuel a b b2 fuel (m.1 + m.2.2) ahi (m.2.1 + m.2.2) bhi else 0)
            + (m.2.1 + m.2.2) ≤ bhi := by
        split
        · rename_i hc
          exact ih (m.1 + m.2.2) ahi (m.2.1 + m.2.2) bhi (le_of_lt hc.1) (le_of_lt hc.2)
            (by omega)
        · omega
      omega

theorem matchesTotal_le (a b : List α) :
    matchesTotal a b ≤ a.length ∧ matchesTotal a b ≤ b.length := by
  have h := mtFuel_le a b (b2jOf b) a.length 0 a.length 0 b.length
    (Nat.zero_le _) (Nat.zero_le _) (by omega)
  unfold matchesTotal
  omega

theorem smRatio_nonneg (a b : List α) : 0 ≤ smRatio a b := by
  unfold smRatio
  split
  · norm_num
  · rename_i hT
    have hpos : (0 : ℚ) < (a.length : ℚ) + (b.length : ℚ) := by
      have : 0 < a.length + b.length := Nat.pos_of_ne_zero hT
      exact_mod_cast this
    positivity

theorem smRatio_le_one (a b : List α) : smRatio a b ≤ 1 := by
  unfold smRatio
  split
  · norm_num
  · rename_i hT
    have hpos : (0 : ℚ) < (a.length : ℚ) + (b.length : ℚ) := by
      have : 0 < a.length + b.length := Nat.pos_of_ne_zero hT
      exact_mod_cast this
    rw [div_le_one hpos]
    have hM := matchesTotal_le a b
    have : 2 * matchesTotal a b ≤ a.length + b.length := by omega
    exact_mod_cast this

/-! Facts about the position lists feeding the scan. -/

theorem mem_positionsIn {b : List α} {c : α} {j : ℕ} :
    j ∈ positionsIn b c ↔ j < b.length ∧ b[j]? = some c := by
  simp [positionsIn, List.mem_filter, List.mem_range]

theorem positionsIn_sorted (b : List α) (c : α) : (positionsIn b c).Pairwise (· < ·) :=
  List.Pairwise.filter _ (List.pairwise_lt_range _)

theorem mem_b2jOf {b : List α} {c : α} {j : ℕ} (h : j ∈ b2jOf b c) :
    j < b.length ∧ b[j]? = some c ∧ isPopular b c = false := by
  by_cases hp : isPopular b c
  · simp [b2jOf, hp] at h
  · have hm := mem_positionsIn.mp (by simpa [b2jOf, hp] using h)
    exact ⟨hm.1, hm.2, by simpa using hp⟩

theorem b2jOf_sorted (b : List α) (c : α) : (b2jOf b c).Pairwise (· < ·) := by
  unfold b2jOf
  split
  · exact List.Pairwise.nil
  · exact positionsIn_sorted b c

/-! The self comparison: specification of the dynamic-programming rows
and the diagonal-dominance argument showing find_longest_match on
(a, a) returns the full range. -/

/-- Position j is a scan candidate at outer index i when comparing a
with itself: j is a stored (non-popular) position of the element a[i]. -/
def condSelfB (a : List α) (i j : ℕ) : Bool :=
  match a[i]? with
  | some c => decide (j ∈ b2jOf a c)
  | none => false

/-- The value the j2len row holds at key j after outer iteration i, in
the self comparison over the full window. -/
def dpChainSelf (a : List α) : ℕ → ℕ → ℕ
  | 0, j => if condSelfB a 0 j then 1 else 0
  | i + 1, 0 => if condSelfB a (i + 1) 0 then 1 else 0
  | i + 1, j + 1 => if condSelfB a (i + 1) (j + 1) then dpChainSelf a i j + 1 else 0

theorem condSelfB_iff {a : List α} {i j : ℕ} :
    condSelfB a i j = true ↔ ∃ c, a[i]? = some c ∧ j ∈ b2jOf a c := by
  unfold condSelfB
  cases a[i]? <;> simp

theorem condSelfB_lt {a : List α} {i j : ℕ} (h : condSelfB a i j = true) :
    i < a.length ∧ j < a.length := by
  obtain ⟨c, hc, hj⟩ := condSelfB_iff.mp h
  obtain ⟨hjl, _, _⟩ := mem_b2jOf hj
  have hil : i < a.length := by
    by_contra hbad
    rw [List.getElem?_eq_none (le_of_not_lt hbad)] at hc
    exact Option.noConfusion hc
  exact ⟨hil, hjl⟩

theorem condSelfB_diag_right {a : List α} {i j : ℕ} (h : condSelfB a i j = true) :
    condSelfB a j j = true := by
  obtain ⟨c, hc, hj⟩ := condSelfB_iff.mp h
  obtain ⟨_, hja, _⟩ := mem_b2jOf hj
  exact condSelfB_iff.mpr ⟨c, hja, hj⟩

theorem condSelfB_diag_left {a : List α} {i j : ℕ} (h : condSelfB a i j = true) :
    condSelfB a i i = true := by
  obtain ⟨c, hc, hj⟩ := condSelfB_iff.mp h
  obtain ⟨_, _, hpop⟩ := mem_b2jOf hj
  have hil : i < a.length := (condSelfB_lt h).1
  refine condSelfB_iff.mpr ⟨c, hc, ?_⟩
  unfold b2jOf
  rw [if_neg (by simp [hpop])]
  exact mem_positionsIn.mpr ⟨hil, hc⟩

theorem dpChainSelf_eq_zero {a : List α} {i j : ℕ} (h : condSelfB a i j = false) :
    dpChainSelf a i j = 0 := by
  match i, j with
  | 0, j => simp [dpChainSelf, h]
  | i + 1, 0 => simp [dpChainSelf, h]
  | i + 1, j + 1 => simp [dpChainSelf, h]

theorem dpChainSelf_le_diag_left (a : List α) :
    ∀ j i, j ≤ i → dpChainSelf a i j ≤ dpChainSelf a j j := by
  intro j
  induction j with
  | zero =>
    intro i _
    cases i with
    | zero => exact le_refl _
    | succ i =>
      show (if condSelfB a (i + 1) 0 then 1 else 0) ≤ _
      split
      · rename_i hc
        have hd := condSelfB_diag_right hc
        simp [dpChainSelf, hd]
      · exact Nat.zero_le _
  | succ j ihj =>
    intro i hj
    cases i with
    | zero => omega
    | succ i =>
      show (if condSelfB a (i + 1) (j + 1) then dpChainSelf a i j + 1 else 0) ≤ _
      split
      · rename_i hc
        have hd := condSelfB_diag_right hc
        show _ ≤ (if condSelfB a (j + 1) (j + 1) then dpChainSelf a j j + 1 else 0)
        rw [if_pos hd]
        exact Nat.succ_le_succ (ihj i (by omega))
      · exact Nat.zero_le _

theorem dpChainSelf_le_diag_right (a : List α) :
    ∀ i j, i ≤ j → dpChainSelf a i j ≤ dpChainSelf a i i := by
  intro i
  induction i with
  | zero =>
    intro j _
    show (if condSelfB a 0 j then 1 else 0) ≤ _
    split
    · rename_i hc
      have hd := condSelfB_diag_left hc
      simp [dpChainSelf, hd]
    · exact Nat.zero_le _
  | succ i ihi =>
    intro j hj
    cases j with
    | zero => omega
    | succ j =>
      show (if condSelfB a (i + 1) (j + 1) then dpChainSelf a i j + 1 else 0) ≤ _
      split
      · rename_i hc
        have hd := condSelfB_diag_left hc
        show _ ≤ (if condSelfB a (i + 1) (i + 1) then dpChainSelf a i i + 1 else 0)
        rw [if_pos hd]
        exact Nat.succ_le_succ (ihi j (by omega))
      · exact Nat.zero_le _

/-- The previous j2len row seen by outer iteration i of the self scan. -/
def prevSelf (a : List α) (i : ℕ) : ℕ → ℕ :=
  fun j => if i = 0 then 0 else dpChainSelf a (i - 1) j

theorem chainStep_eq {a : List α} {i j : ℕ} (h : condSelfB a i j = true) :
    (if j = 0 then 0 else prevSelf a i (j - 1)) + 1 = dpChainSelf a i j := by
  match i, j with
  | 0, 0 => simp [prevSelf, dpChainSelf, h]
  | 0, j + 1 => simp [prevSelf, dpChainSelf, h]
  | i + 1, 0 => simp [prevSelf, dpChainSelf, h]
  | i + 1, j + 1 => simp [prevSelf, dpChainSelf, h]

theorem scanJs_acc_self (a : List α) (i : ℕ) :
    ∀ (js : List ℕ) (acc : ℕ → ℕ) (best : ℕ × ℕ × ℕ),
      js.Pairwise (· < ·) → (∀ j ∈ js, j < a.length) →
      (scanJs (prevSelf a i) i 0 a.length js acc best).1
        = fun x => if x ∈ js then (if x = 0 then 0 else prevSelf a i (x - 1)) + 1 else acc x := by
  intro js
  induction js with
  | nil =>
    intro acc best _ _
    funext x
    simp [scanJs]
  | cons j js ih =>
    intro acc best hpw hlt
    have hjn : j < a.length := hlt j (List.mem_cons_self j js)
    have hnotlo : ¬ j < 0 := by omega
    have hnothi : ¬ a.length ≤ j := by omega
    have hjnotin : j ∉ js := fun hmem =>
      lt_irrefl j ((List.pairwise_cons.mp hpw).1 j hmem)
    simp only [scanJs, if_neg hnotlo, if_neg hnothi]
    rw [ih _ _ (List.pairwise_cons.mp hpw).2 (fun x hx => hlt x (List.mem_cons_of_mem j hx))]
    funext x
    by_cases hx : x ∈ js
    · have hxcons : x ∈ j :: js := List.mem_cons_of_mem j hx
      simp [hx, hxcons]
    · by_cases hxj : x = j
      · subst hxj
        simp [hx, hjnotin]
      · have hxcons : x ∉ j :: js := by
          simp [hxj, hx]
        simp [hx, hxcons, hxj]

theorem scanJs_best_self (a : List α) (i : ℕ) :
    ∀ (js : List ℕ) (acc : ℕ → ℕ) (best : ℕ × ℕ × ℕ),
      js.Pairwise (· < ·) →
      (∀ j ∈ js, condSelfB a i j = true) →
      best.1 = best.2.1 →
      (∀ i', i' < i → dpChainSelf a i' i' ≤ best.2.2) →
      (i ∈ js ∨ dpChainSelf a i i ≤ best.2.2) →
      ((scanJs (prevSelf a i) i 0 a.length js acc best).2.1
          = (scanJs (prevSelf a i) i 0 a.length js acc best).2.2.1) ∧
        (∀ i', i' < i →
          dpChainSelf a i' i' ≤ (scanJs (prevSelf a i) i 0 a.length js acc best).2.2.2) ∧
        dpChainSelf a i i ≤ (scanJs (prevSelf a i) i 0 a.length js acc best).2.2.2 := by
  intro js
  induction js with
  | nil =>
    intro acc best _ _ hdiag hinv hdis
    refine ⟨hdiag, hinv, ?_⟩
    rcases hdis with h | h
    · exact absurd h (List.not_mem_nil i)
    · exact h
  | cons j js ih =>
    intro acc best hpw hcond hdiag hinv hdis
    have hcj : condSelfB a i j = true := hcond j (List.mem_cons_self j js)
    have hjn : j < a.length := (condSelfB_lt hcj).2
    have hnotlo : ¬ j < 0 := by omega
    have hnothi : ¬ a.length ≤ j := by omega
    have hk := chainStep_eq hcj
    have hjnotin : j ∉ js := fun hmem =>
      lt_irrefl j ((List.pairwise_cons.mp hpw).1 j hmem)
    simp only [scanJs, if_neg hnotlo, if_neg hnothi]
    by_cases hupd : best.2.2 < (if j = 0 then 0 else prevSelf a i (j - 1)) + 1
    · have hkval : best.2.2 < dpChainSelf a i j := by omega
      have hji : j = i := by
        rcases lt_trichotomy j i with hlt | heq | hgt
        · have h1 : dpChainSelf a i j ≤ dpChainSelf a j j :=
            dpChainSelf_le_diag_left a j i (le_of_lt hlt)
          have h2 := hinv j hlt
          omega
        · exact heq
        · exfalso
          have hnotin : i ∉ j :: js := by
            intro hmem
            rcases List.mem_cons.mp hmem with h | h
            · omega
            · exact absurd ((List.pairwise_cons.mp hpw).1 i h) (by omega)
          have hds : dpChainSelf a i i ≤ best.2.2 := by
            rcases hdis with h | h
            · exact absurd h hnotin
            · exact h
          have h1 : dpChainSelf a i j ≤ dpChainSelf a i i :=
            dpChainSelf_le_diag_right a i j (le_of_lt hgt)
          omega
      subst hji
      rw [if_pos hupd]
      have hres := ih (fun x => if x = j then (if j = 0 then 0 else prevSelf a j (j - 1)) + 1
          else acc x)
        (j + 1 - ((if j = 0 then 0 else prevSelf a j (j - 1)) + 1),
          j + 1 - ((if j = 0 then 0 else prevSelf a j (j - 1)) + 1),
          (if j = 0 then 0 else prevSelf a j (j - 1)) + 1)
        (List.pairwise_cons.mp hpw).2
        (fun x hx => hcond x (List.mem_cons_of_mem j hx))
        rfl
        (fun i' hi' => by
          have := hinv i' hi'
          simp only []
          omega)
        (Or.inr (by simp only []; omega))
      exact hres
    · rw [if_neg hupd]
      apply ih _ best (List.pairwise_cons.mp hpw).2
        (fun x hx => hcond x (List.mem_cons_of_mem j hx)) hdiag hinv
      rcases hdis with h | h
      · rcases List.mem_cons.mp h with heq | hmem
        · subst heq
          exact Or.inr (by omega)
        · exact Or.inl hmem
      · exact Or.inr h

theorem dpOuter_self (a : List α) :
    ∀ (m i : ℕ) (best : ℕ × ℕ × ℕ),
      i + m = a.length →
      best.1 = best.2.1 →
      (∀ i', i' < i → dpChainSelf a i' i' ≤ best.2.2) →
      (dpOuter a (b2jOf a) 0 a.length (List.range' i m) (prevSelf a i) best).1
        = (dpOuter a (b2jOf a) 0 a.length (List.range' i m) (prevSelf a i) best).2.1 := by
  intro m
  induction m with
  | zero =>
    intro i best _ hdiag _
    simpa [dpOuter] using hdiag
  | succ m ih =>
    intro i best hlen hdiag hinv
    have hin : i < a.length := by omega
    have hget : a[i]? = some a[i] := List.getElem?_eq_getElem hin
    rw [List.range'_succ]
    simp only [dpOuter, hget]
    have hmem : ∀ j, j ∈ b2jOf a a[i] ↔ condSelfB a i j = true := by
      intro j
      rw [condSelfB_iff]
      constructor
      · intro h
        exact ⟨a[i], hget, h⟩
      · rintro ⟨c, hc, hj⟩
        rw [hget] at hc
        injection hc with hc
        rwa [hc]
    have hpw := b2jOf_sorted a a[i]
    have hltlen : ∀ j ∈ b2jOf a a[i], j < a.length := fun j hj => (mem_b2jOf hj).1
    have haccEq := scanJs_acc_self a i (b2jOf a a[i]) (fun _ => 0) best hpw hltlen
    have hbest := scanJs_best_self a i (b2jOf a a[i]) (fun _ => 0) best hpw
      (fun j hj => (hmem j).mp hj) hdiag hinv
      (by
        by_cases hc : condSelfB a i i = true
        · exact Or.inl ((hmem i).mpr hc)
        · refine Or.inr ?_
          rw [dpChainSelf_eq_zero (Bool.eq_false_iff.mpr hc)]
          exact Nat.zero_le _)
    have hrow : (Difflib.scanJs (prevSelf a i) i 0 a.length (b2jOf a a[i])
        (fun _ => 0) best).1 = prevSelf a (i + 1) := by
      rw [haccEq]
      funext x
      show _ = dpChainSelf a i x
      by_cases hx : x ∈ b2jOf a a[i]
      · rw [if_pos hx]
        exact chainStep_eq ((hmem x).mp hx)
      · rw [if_neg hx]
        have hcx : condSelfB a i x = false := by
          rcases Bool.eq_false_or_eq_true (condSelfB a i x) with h | h
          · exact absurd ((hmem x).mpr h) hx
          · exact h
        rw [dpChainSelf_eq_zero hcx]
    rw [hrow]
    apply ih (i + 1) _ (by omega) hbest.1
    intro i' hi'
    rcases Nat.lt_succ_iff_lt_or_eq.mp hi' with h | h
    · exact hbest.2.1 i' h
    · subst h
      exact hbest.2.2

theorem matchAt_self {a : List α} {x : ℕ} (hx : x < a.length) :
    matchAt a a false x x = true := by
  have hget : a[x]? = some a[x] := List.getElem?_eq_getElem hx
  simp [matchAt, hget, isbjunk]

theorem matchAt_junk (a b : List α) (ia jb : ℕ) : matchAt a b true ia jb = false := by
  unfold matchAt
  cases a[ia]? <;> cases b[jb]? <;> simp [isbjunk]

theorem extendLow_self_diag (a : List α) :
    ∀ (bi sz : ℕ), bi ≤ a.length →
      extendLow a a 0 0 false bi bi sz = (0, 0, sz + bi) := by
  intro bi
  induction bi with
  | zero =>
    intro sz _
    simp [extendLow]
  | succ bi ih =>
    intro sz hbi
    have hm : matchAt a a false bi ((bi + 1) - 1) = true := by
      simpa using matchAt_self (a := a) (by omega)
    simp only [extendLow, hm]
    rw [if_pos (by simp)]
    rw [show bi + 1 - 1 = bi from rfl]
    rw [ih (sz + 1) (by omega)]
    have : sz + 1 + bi = sz + (bi + 1) := by omega
    rw [this]

theorem extendHigh_self (a : List α) :
    ∀ (fuel sz : ℕ), sz ≤ a.length → a.length ≤ sz + fuel →
      extendHigh a a a.length a.length false fuel 0 0 sz = a.length := by
  intro fuel
  induction fuel with
  | zero =>
    intro sz h1 h2
    have : sz = a.length := by omega
    simpa [extendHigh] using this
  | succ fuel ih =>
    intro sz h1 h2
    by_cases hsz : sz < a.length
    · have hm : matchAt a a false (0 + sz) (0 + sz) = true := by
        simpa using matchAt_self (a := a) (by omega)
      simp only [extendHigh, hm]
      rw [if_pos (by simp; omega)]
      exact ih (sz + 1) (by omega) (by omega)
    · have hsz' : sz = a.length := by omega
      simp only [extendHigh]
      rw [if_neg (by simp; omega)]
      exact hsz'

theorem extendLow_junk (a b : List α) (alo blo : ℕ) :
    ∀ (bi bj sz : ℕ), extendLow a b alo blo true bi bj sz = (bi, bj, sz) := by
  intro bi bj sz
  cases bi with
  | zero => simp [extendLow]
  | succ bi => simp [extendLow, matchAt_junk]

theorem extendHigh_junk (a b : List α) (ahi bhi : ℕ) :
    ∀ (fuel bi bj sz : ℕ), extendHigh a b ahi bhi true fuel bi bj sz = sz := by
  intro fuel bi bj sz
  cases fuel with
  | zero => simp [extendHigh]
  | succ fuel => simp [extendHigh, matchAt_junk]

theorem findLongestMatch_self (a : List α) :
    findLongestMatch a a (b2jOf a) 0 a.length 0 a.length = (0, 0, a.length) := by
  have hprev0 : (prevSelf a 0) = (fun _ => (0 : ℕ)) := rfl
  have hdp := dpOuter_self a a.length 0 (0, 0, 0) (by omega) rfl (by omega)
  rw [hprev0] at hdp
  have hbounds := dpOuter_inv a (b2jOf a) 0 a.length 0 a.length
    a.length 0 (fun _ => 0) (0, 0, 0) (le_refl 0) (by omega)
    (rowInv_zero _ _ _ _) ⟨le_refl _, le_refl _, by simp, by simp⟩
  unfold findLongestMatch
  simp only [Nat.sub_zero]
  set d := dpOuter a (b2jOf a) 0 a.length (List.range' 0 a.length) (fun _ => 0) (0, 0, 0)
    with hd
  obtain ⟨_, _, hb3, _⟩ := hbounds
  have hd1le : d.1 ≤ a.length := by omega
  have hlow : extendLow a a 0 0 false d.1 d.2.1 d.2.2 = (0, 0, d.2.2 + d.1) := by
    rw [← hdp]
    exact extendLow_self_diag a d.1 d.2.2 hd1le
  rw [hlow]
  have hhigh : extendHigh a a a.length a.length false (a.length + a.length)
      (0, 0, d.2.2 + d.1).1 (0, 0, d.2.2 + d.1).2.1 (0, 0, d.2.2 + d.1).2.2 = a.length := by
    show extendHigh a a a.length a.length false (a.length + a.length) 0 0 (d.2.2 + d.1)
      = a.length
    exact extendHigh_self a (a.length + a.length) (d.2.2 + d.1) (by omega) (by omega)
  rw [hhigh]
  rw [extendLow_junk, extendHigh_junk]

theorem smRatio_self (a : List α) : smRatio a a = 1 := by
  unfold smRatio
  by_cases h0 : a.length + a.length = 0
  · rw [if_pos h0]
  · rw [if_neg h0]
    have hn : a.length ≠ 0 := by omega
    obtain ⟨m, hm⟩ := Nat.exists_eq_succ_of_ne_zero hn
    have hM : matchesTotal a a = a.length := by
      unfold matchesTotal
      rw [hm]
      have hflm : findLongestMatch a a (b2jOf a) 0 m.succ 0 m.succ = (0, 0, m.succ) := by
        rw [← hm]
        exact findLongestMatch_self a
      simp [mtFuel, hflm]
    rw [hM]
    have hq : ((a.length : ℚ) + (a.length : ℚ)) ≠ 0 := by
      have : 0 < a.length := by omega
      have : (0 : ℚ) < (a.length : ℚ) + (a.length : ℚ) := by
        have hc : (0 : ℚ) < (a.length : ℚ) := by exact_mod_cast this
        linarith
      linarith
    field_simp
    ring

end Difflib

/-! Stability of the descending sort: filtering any relevance class out
of the sorted list returns exactly that class in input order. -/

theorem orderedInsert_filter_key (v : ℚ) (x : Scored) :
    ∀ l : List Scored,
      (List.orderedInsert relDesc x l).filter (fun s => decide (s.relevance_score = v))
        = if x.relevance_score = v then
            x :: l.filter (fun s => decide (s.relevance_score = v))
          else l.filter (fun s => decide (s.relevance_score = v)) := by
  intro l
  induction l with
  | nil =>
    by_cases hx : x.relevance_score = v
    · simp [List.orderedInsert, List.filter, hx]
    · simp [List.orderedInsert, List.filter, hx]
  | cons b l ih =>
    show (if relDesc x b then x :: b :: l else b :: List.orderedInsert relDesc x l).filter _ = _
    by_cases hr : relDesc x b
    · rw [if_pos hr]
      by_cases hx : x.relevance_score = v
      · simp [List.filter, hx]
      · simp [List.filter, hx]
    · rw [if_neg hr]
      by_cases hx : x.relevance_score = v
      · have hbv : ¬ b.relevance_score = v := by
          intro hb
          exact hr (le_of_eq (hb.trans hx.symm))
        rw [if_pos hx] at ih ⊢
        simp only [List.filter, hbv, decide_eq_true_eq, decide_eq_false hbv]
        simpa [hbv] using ih
      · rw [if_neg hx] at ih ⊢
        by_cases hbv : b.relevance_score = v
        · simp [List.filter, hbv, ih]
        · simp [List.filter, hbv, ih]

theorem pySortDesc_filter_key (v : ℚ) :
    ∀ l : List Scored,
      (pySortDesc l).filter (fun s => decide (s.relevance_score = v))
        = l.filter (fun s => decide (s.relevance_score = v)) := by
  intro l
  induction l with
  | nil => rfl
  | cons x l ih =>
    show (List.orderedInsert relDesc x (List.insertionSort relDesc l)).filter _ = _
    rw [orderedInsert_filter_key]
    by_cases hx : x.relevance_score = v
    · rw [if_pos hx]
      rw [show (List.insertionSort relDesc l) = pySortDesc l from rfl, ih]
      simp [List.filter, hx]
    · rw [if_neg hx]
      rw [show (List.insertionSort relDesc l) = pySortDesc l from rfl, ih]
      simp [List.filter, hx]

/-! The executor model coincides with the sequential left-to-right map
whenever the completion schedule covers every task index. -/

theorem fillSlots_getElem (f : GsResult → Except PyErr NRec) (l : List GsResult) :
    ∀ (sched : List ℕ) (slots : List (Option (Except PyErr NRec))) (j : ℕ),
      (fillSlots f l sched slots)[j]?
        = if j ∈ sched ∧ j < slots.length then some ((l[j]?).map f) else slots[j]? := by
  intro sched
  induction sched with
  | nil =>
    intro slots j
    simp [fillSlots]
  | cons i rest ih =>
    intro slots j
    show (fillSlots f l rest (slots.set i ((l[i]?).map f)))[j]? = _
    rw [ih]
    simp only [List.length_set]
    by_cases hlen : j < slots.length
    · by_cases hjr : j ∈ rest
      · rw [if_pos ⟨hjr, hlen⟩, if_pos ⟨List.mem_cons_of_mem i hjr, hlen⟩]
      · rw [if_neg (by simp [hjr])]
        by_cases hij : i = j
        · subst hij
          rw [List.getElem?_set_self hlen, if_pos ⟨List.mem_cons_self i rest, hlen⟩]
        · rw [List.getElem?_set_ne hij]
          have : j ∉ i :: rest := by
            intro hmem
            rcases List.mem_cons.mp hmem with h | h
            · exact hij h.symm
            · exact hjr h
          rw [if_neg (by simp [this])]
    · rw [if_neg (by simp [hlen]), if_neg (by simp [hlen])]
      rw [List.getElem?_eq_none (by simpa using le_of_not_lt hlen),
        List.getElem?_eq_none (le_of_not_lt hlen)]

theorem fillSlots_full (f : GsResult → Except PyErr NRec) (l : List GsResult)
    (sched : List ℕ) (hsched : ∀ j, j < l.length → j ∈ sched) :
    fillSlots f l sched (List.replicate l.length Option.none)
      = l.map (fun x => some (f x)) := by
  apply List.ext_getElem?
  intro j
  rw [fillSlots_getElem]
  simp only [List.length_replicate]
  by_cases hlen : j < l.length
  · rw [if_pos ⟨hsched j hlen, hlen⟩]
    rw [List.getElem?_eq_getElem hlen, List.getElem?_map, List.getElem?_eq_getElem hlen]
    simp
  · rw [if_neg (by simp [hlen])]
    rw [List.getElem?_eq_none (by simpa using le_of_not_lt hlen),
      List.getElem?_eq_none (by simpa using le_of_not_lt hlen)]

theorem collectSlots_map (f : GsResult → Except PyErr NRec) :
    ∀ l : List GsResult, collectSlots (l.map (fun x => some (f x))) = mapEnrich f l := by
  intro l
  induction l with
  | nil => rfl
  | cons g gs ih =>
    show collectSlots (some (f g) :: gs.map (fun x => some (f x))) = _
    cases hfg : f g with
    | error e => simp [collectSlots, mapEnrich, hfg]
    | ok r =>
      simp only [collectSlots, mapEnrich, hfg, ih]

theorem executorMap_eq_mapEnrich (f : GsResult → Except PyErr NRec) (l : List GsResult)
    (sched : List ℕ) (hsched : ∀ j, j < l.length → j ∈ sched) :
    executorMap f l sched = mapEnrich f l := by
  unfold executorMap
  rw [fillSlots_full f l sched hsched, collectSlots_map]

theorem mapEnrich_ok_char (f : GsResult → Except PyErr NRec) :
    ∀ (l : List GsResult) (out : List NRec), mapEnrich f l = .ok out →
      out.length = l.length ∧
        ∀ i : ℕ, out[i]? = (l[i]?).bind (fun g => (f g).toOption) := by
  intro l
  induction l with
  | nil =>
    intro out h
    injection h with h
    subst h
    exact ⟨rfl, fun i => by simp⟩
  | cons g gs ih =>
    intro out h
    unfold mapEnrich at h
    split at h
    · exact absurd h (by simp)
    · rename_i r hfg
      split at h
      · exact absurd h (by simp)
      · rename_i rest hrest
        injection h with h
        subst h
        obtain ⟨hlen, hget⟩ := ih rest hrest
        refine ⟨by simpa using hlen, ?_⟩
        intro i
        cases i with
        | zero => simp [hfg, Except.toOption]
        | succ i => simpa using hget i

theorem mapEnrich_all_ok (f : GsResult → Except PyErr NRec) :
    ∀ l : List GsResult, (∀ g ∈ l, ∃ r, f g = .ok r) →
      ∃ out, mapEnrich f l = .ok out := by
  intro l
  induction l with
  | nil => exact fun _ => ⟨[], rfl⟩
  | cons g gs ih =>
    intro h
    obtain ⟨r, hr⟩ := h g (List.mem_cons_self g gs)
    obtain ⟨rest, hrest⟩ := ih (fun x hx => h x (List.mem_cons_of_mem g hx))
    exact ⟨r :: rest, by simp [mapEnrich, hr, hrest]⟩

theorem mapEnrich_error_propagates (f : GsResult → Except PyErr NRec) :
    ∀ (l : List GsResult) (g : GsResult) (e : PyErr), g ∈ l → f g = .error e →
      ∃ e2, mapEnrich f l = .error e2 := by
  intro l
  induction l with
  | nil =>
    intro g e hg _
    exact absurd hg (List.not_mem_nil g)
  | cons x xs ih =>
    intro g e hg hfe
    cases hfx : f x with
    | error e0 => exact ⟨e0, by simp [mapEnrich, hfx]⟩
    | ok r =>
      rcases List.mem_cons.mp hg with h | h
      · subst h
        rw [hfx] at hfe
        exact absurd hfe (by simp)
      · obtain ⟨e2, he2⟩ := ih g e h hfe
        exact ⟨e2, by simp [mapEnrich, hfx, he2]⟩

/-! The deduplication step computes the pure predicate whenever the
involved titles are well formed. -/

theorem is_duplicate_pure :
    ∀ (sem : List NRec), (∀ r ∈ sem, wfSemTitle r) → ∀ t : String,
      is_duplicate (.str t) sem (9 / 10)
        = .ok (sem.any (fun r => decide (9 / 10 ≤ similar t (pyValStr r.title)))) := by
  intro sem
  induction sem with
  | nil => intro _ t; rfl
  | cons r rs ih =>
    intro hwf t
    obtain ⟨s, hs⟩ := hwf r (List.mem_cons_self r rs)
    show (match similarPy (.str t) r.title with
      | Except.error e => Except.error e
      | Except.ok sc => if 9 / 10 ≤ sc then Except.ok true
        else is_duplicate (.str t) rs (9 / 10)) = _
    rw [hs]
    show (if (9 : ℚ) / 10 ≤ similar t s then Except.ok true
      else is_duplicate (.str t) rs (9 / 10)) = _
    by_cases hge : (9 : ℚ) / 10 ≤ similar t s
    · rw [if_pos hge]
      have : (9 / 10 ≤ similar t (pyValStr r.title)) = True := by
        rw [hs]
        simpa [pyValStr] using hge
      simp [List.any, hs, pyValStr, hge]
    · rw [if_neg hge, ih (fun x hx => hwf x (List.mem_cons_of_mem r hx)) t]
      simp [List.any, hs, pyValStr, hge]

theorem gsTitle_of_wf {g : GsResult} (h : wfGsTitle g) :
    g.title.getD (.str "") = .str (pyValStr (g.title.getD (.str ""))) := by
  rcases h with h | ⟨s, hs⟩
  · rw [h]; rfl
  · rw [hs]; rfl

theorem filterNonDup_pure (sem : List NRec) (hsem : ∀ r ∈ sem, wfSemTitle r) :
    ∀ gs : List GsResult, (∀ g ∈ gs, wfGsTitle g) →
      filterNonDup (some sem) gs = .ok (gs.filter (fun g => !(dupPure g sem))) := by
  intro gs
  induction gs with
  | nil => intro _; rfl
  | cons g rest ih =>
    intro hwf
    show (match (is_duplicate (g.title.getD (.str "")) sem (9 / 10)) with
      | Except.error e => Except.error e
      | Except.ok d =>
        match filterNonDup (some sem) rest with
        | Except.error e => Except.error e
        | Except.ok out => if d then Except.ok out else Except.ok (g :: out)) = _
    rw [gsTitle_of_wf (hwf g (List.mem_cons_self g rest)), is_duplicate_pure sem hsem]
    rw [ih (fun x hx => hwf x (List.mem_cons_of_mem g hx))]
    show (if (sem.any fun r => decide (9 / 10 ≤ similar (pyValStr (g.title.getD (.str ""))) (pyValStr r.title))) then _ else _) = _
    by_cases hd : (sem.any fun r => decide (9 / 10 ≤ similar (pyValStr (g.title.getD (.str ""))) (pyValStr r.title))) = true
    · rw [if_pos hd]
      have : dupPure g sem = true := hd
      simp [List.filter, this]
    · rw [if_neg hd]
      have : dupPure g sem = false := Bool.eq_false_iff.mpr hd
      simp [List.filter, this]

/-! The paginated loop under well-formed pages. -/

theorem extractPagRec_wf (p : SerpPage) (hp : p.pagPresent = true)
    (hc : p.pagCurrent.isSome) (r : PagRaw) (hr : wfPagRaw r) :
    extractPagRec p r = .ok (extractPagRecD p r) := by
  obtain ⟨h1, h2, h3, h4⟩ := hr
  obtain ⟨pos, hpos⟩ := Option.isSome_iff_exists.mp h1
  obtain ⟨t, ht⟩ := Option.isSome_iff_exists.mp h2
  obtain ⟨su, hsu⟩ := Option.isSome_iff_exists.mp h3
  obtain ⟨rid, hrid⟩ := Option.isSome_iff_exists.mp h4
  obtain ⟨cur, hcur⟩ := Option.isSome_iff_exists.mp hc
  unfold extractPagRec extractPagRecD
  rw [hpos, ht, hsu, hrid, hp, hcur]
  simp [hpos, ht, hsu, hrid, hcur]

theorem pagExtractAll_wf (p : SerpPage) (hp : p.pagPresent = true)
    (hc : p.pagCurrent.isSome) :
    ∀ raw : List PagRaw, (∀ r ∈ raw, wfPagRaw r) →
      pagExtractAll p raw = .ok (raw.map (extractPagRecD p)) := by
  intro raw
  induction raw with
  | nil => intro _; rfl
  | cons r rs ih =>
    intro hwf
    show (match extractPagRec p r with
      | Except.error e => Except.error e
      | Except.ok rec1 =>
        match pagExtractAll p rs with
        | Except.error e => Except.error e
        | Except.ok rest => Except.ok (rec1 :: rest)) = _
    rw [extractPagRec_wf p hp hc r (hwf r (List.mem_cons_self r rs)),
      ih (fun x hx => hwf x (List.mem_cons_of_mem r hx))]
    rfl

theorem gsLoop_spec :
    ∀ (pages : List SerpPage) (count : ℕ) (acc : List PagRec),
      (∀ p ∈ pages, wfPage p) →
      gsLoop pages count acc = .ok (acc ++ (pagesTaken pages count).flatMap pageRecsD) := by
  intro pages
  induction pages with
  | nil => intro count acc _; simp [gsLoop, pagesTaken]
  | cons p rest ih =>
    intro count acc hwf
    obtain ⟨ho, hp, hc, hr⟩ := hwf p (List.mem_cons_self p rest)
    obtain ⟨raw, hraw⟩ := Option.isSome_iff_exists.mp ho
    have hrw : ∀ x ∈ raw, wfPagRaw x := by
      intro x hx
      apply hr
      rw [hraw]
      simpa using hx
    have hext := pagExtractAll_wf p hp hc raw hrw
    simp only [gsLoop, hraw, hext]
    have hlenmap : (raw.map (extractPagRecD p)).length = pageLen p := by
      simp [pageLen, hraw]
    have hrecs : raw.map (extractPagRecD p) = pageRecsD p := by
      simp [pageRecsD, hraw]
    rw [hlenmap]
    by_cases hcond : ((p.pagPresent && p.pagNext) && decide (count + pageLen p < 10)) = true
    · rw [if_pos hcond]
      rw [ih (count + pageLen p) _ (fun x hx => hwf x (List.mem_cons_of_mem p hx))]
      rw [hrecs]
      simp only [pagesTaken, if_pos hcond, List.flatMap_cons, List.append_assoc]
    · rw [if_neg hcond]
      rw [hrecs]
      simp only [pagesTaken, if_neg hcond, List.flatMap_cons, List.flatMap_nil,
        List.append_nil, List.append_assoc]

/-- scoreStep assigns exactly the recencyOf value as recency_score. -/
theorem scoreStep_recency (o : RankOracle) (i : ℕ) (p : Paper) (s : Scored)
    (h : scoreStep o i p = .ok s) : recencyOf p = .ok s.recency_score := by
  unfold scoreStep at h
  split at h
  · exact absurd h (by simp)
  · split at h
    · exact absurd h (by simp)
    · rename_i recency hrec
      injection h with h
      rw [← h]
      exact hrec

/-- C1: the spec says rank_papers_by_relevance computes
citation_score = log(1 + citations/10) with missing or non-numeric
citations (including the documented empty value "") treated as 0.  In
the code, paper.get("citations", 0) / 10 raises TypeError on the empty
string the adapters and the enrichment fallback store, so ranking such
a record crashes instead of scoring it 0. -/
theorem C1_empty_citations_typeerror :
    scoreStep oracle0 0 paperEmptyCitations = .error .typeError ∧
      rank_papers_by_relevance_pkg oracle0 [paperEmptyCitations] "x" = .error .typeError := by
  exact ⟨rfl, rfl⟩

/-- C2 counterexample: the claim says recency_score is 0 for an
unparseable year and lies in (0,1] for any parseable year.  The code
scores the parseable year 2026 as 10/9 > 1, and raises ValueError on
the unparseable year "n.d." instead of scoring it 0. -/
theorem C2_counterexample_recency :
    rank_papers_by_relevance_pkg oracle0 [paperYear2026] "x" = .ok [scored2026] ∧
      scored2026.recency_score = 10 / 9 ∧
      ¬ scored2026.recency_score ≤ 1 ∧
      rank_papers_by_relevance_pkg oracle0 [paperYearND] "x" = .error .valueError := by
  refine ⟨by with_unfolding_all decide, rfl, by with_unfolding_all decide, by rfl⟩

/-- C2 amended: rank_papers_by_relevance assigns recency_score = 0 when
the year field is the empty string; when the year parses as an integer
y <= 2025 it assigns 1 / (1 + 0.1 * (2025 - y)), which lies in (0, 1]
and is monotonically decreasing in the article age; a non-empty
unparseable year raises the int() error instead of scoring 0 (and
years above 2025 leave (0, 1], see the counterexample). -/
theorem C2_recency_spec :
    (∀ p : Paper, (p.year).getD .none = .str "" → recencyOf p = .ok 0) ∧
    (∀ (p : Paper) (y : ℤ), (p.year).getD .none ≠ .str "" →
      pyInt ((p.year).getD .none) = .ok y → y ≤ 2025 →
      recencyOf p = .ok (1 / (1 + ((2025 - y : ℤ) : ℚ) / 10)) ∧
        (0 : ℚ) < 1 / (1 + ((2025 - y : ℤ) : ℚ) / 10) ∧
        1 / (1 + ((2025 - y : ℤ) : ℚ) / 10) ≤ 1) ∧
    (∀ y1 y2 : ℤ, y1 ≤ y2 → y2 ≤ 2025 →
      1 / (1 + ((2025 - y1 : ℤ) : ℚ) / 10) ≤ 1 / (1 + ((2025 - y2 : ℤ) : ℚ) / 10)) ∧
    (∀ (p : Paper) (e : PyErr), (p.year).getD .none ≠ .str "" →
      pyInt ((p.year).getD .none) = .error e → recencyOf p = .error e) ∧
    (∀ (o : RankOracle) (i : ℕ) (p : Paper) (s : Scored),
      scoreStep o i p = .ok s → recencyOf p = .ok s.recency_score) := by
  refine ⟨?_, ?_, ?_, ?_, scoreStep_recency⟩
  · intro p h
    unfold recencyOf
    rw [if_pos h]
  · intro p y hne hy hle
    have hnum : (0 : ℚ) ≤ ((2025 - y : ℤ) : ℚ) := by
      exact_mod_cast (by omega : (0 : ℤ) ≤ 2025 - y)
    have hd : (0 : ℚ) < 1 + ((2025 - y : ℤ) : ℚ) / 10 := by linarith
    refine ⟨?_, ?_, ?_⟩
    · unfold recencyOf
      rw [if_neg hne, hy]
      show (if (1 + ((2025 - y : ℤ) : ℚ) / 10) = 0 then
          (Except.error PyErr.zeroDivisionError : Except PyErr ℚ)
        else Except.ok (1 / (1 + ((2025 - y : ℤ) : ℚ) / 10)))
        = Except.ok (1 / (1 + ((2025 - y : ℤ) : ℚ) / 10))
      rw [if_neg (by intro hz; rw [hz] at hd; exact lt_irrefl 0 hd)]
    · exact one_div_pos.mpr hd
    · rw [div_le_one hd]
      linarith
  · intro y1 y2 h12 h2
    have hd2 : (0 : ℚ) < 1 + ((2025 - y2 : ℤ) : ℚ) / 10 := by
      have : (0 : ℚ) ≤ ((2025 - y2 : ℤ) : ℚ) := by
        exact_mod_cast (by omega : (0 : ℤ) ≤ 2025 - y2)
      linarith
    apply one_div_le_one_div_of_le hd2
    have : ((2025 - y2 : ℤ) : ℚ) ≤ ((2025 - y1 : ℤ) : ℚ) := by
      exact_mod_cast (by omega : (2025 - y2 : ℤ) ≤ 2025 - y1)
    linarith
  · intro p e hne he
    unfold recencyOf
    rw [if_neg hne, he]

/-- C2 witness: the empty-year conjunct applied to a concrete paper. -/
theorem C2_recency_spec_witness :
    (paperEmptyYear.year).getD .none = .str "" ∧ recencyOf paperEmptyYear = .ok 0 :=
  ⟨rfl, C2_recency_spec.1 paperEmptyYear rfl⟩

/-- C3 counterexample: the claim says every source adapter returns an
empty list on any transport or parse failure.  get_arxiv_results on a
non-2xx status raises Exception instead of returning []. -/
theorem C3_counterexample_arxiv_raises :
    get_arxiv_results (.ok { status := 500, body := .ok [] }) = .error .exception := by
  rfl

/-- C3 amended: the semantic scholar adapter and the enriched Google
Scholar adapter never propagate (they return [] on transport failure,
non-2xx status, malformed body, or any internal enrichment error), but
get_arxiv_results propagates transport errors and raises on any
non-200 status, and the paginated googlescholar_results propagates a
KeyError on a malformed page. -/
theorem C3_adapter_failure_behaviour :
    (∀ e, get_semantic_scholar_results (.error e) = []) ∧
    (∀ resp : SemResp, 400 ≤ resp.status → get_semantic_scholar_results (.ok resp) = []) ∧
    (∀ (n : ℕ) (e : PyErr),
      get_semantic_scholar_results (.ok { status := n, body := .error e }) = []) ∧
    (∀ e kw lookup sem sched, get_googlescholar_results (.error e) kw lookup sem sched = []) ∧
    (∀ (tr : Option (List GsResult)) kw lookup sem sched (e : PyErr),
      enrich_gs_results_parallel kw lookup (tr.getD []) sem sched = .error e →
      get_googlescholar_results (.ok tr) kw lookup sem sched = []) ∧
    (∀ e, get_arxiv_results (.error e) = .error e) ∧
    (∀ resp : ArxivResp, resp.status ≠ 200 → get_arxiv_results (.ok resp) = .error .exception) ∧
    (∀ (p : SerpPage) (rest : List SerpPage) (count : ℕ) (acc : List PagRec),
      p.organic = Option.none → gsLoop (p :: rest) count acc = .error .keyError) := by
  refine ⟨fun e => rfl, ?_, ?_, fun e kw lookup sem sched => rfl, ?_, fun e => rfl, ?_, ?_⟩
  · intro resp h
    show (if 400 ≤ resp.status then ([] : List NRec)
      else match resp.body with
        | Except.error _ => []
        | Except.ok data => data.map normalizeSem) = []
    rw [if_pos h]
  · intro n e
    show (if 400 ≤ n then ([] : List NRec) else []) = []
    split <;> rfl
  · intro tr kw lookup sem sched e h
    show (match enrich_gs_results_parallel kw lookup (tr.getD []) sem sched with
      | Except.error _ => ([] : List NRec)
      | Except.ok l => l) = []
    rw [h]
  · intro resp h
    show (if resp.status ≠ 200 then (Except.error PyErr.exception : Except PyErr (List ArxivRec))
      else match resp.body with
        | Except.error e => Except.error e
        | Except.ok entries => arxivExtract entries) = Except.error PyErr.exception
    rw [if_pos h]
  · intro p rest count acc h
    show (match p.organic with
      | Option.none => (Except.error PyErr.keyError : Except PyErr (List PagRec))
      | some raw =>
        match pagExtractAll p raw with
        | Except.error e => Except.error e
        | Except.ok recs =>
          if (p.pagPresent && p.pagNext) && decide (count + recs.length < 10) then
            gsLoop rest (count + recs.length) (acc ++ recs)
          else Except.ok (acc ++ recs)) = Except.error PyErr.keyError
    rw [h]

/-- C3 witness: a 4xx semantic scholar response yields []. -/
theorem C3_adapter_failure_witness :
    400 ≤ (500 : ℕ) ∧ get_semantic_scholar_results (.ok { status := 500, body := .ok [] }) = [] :=
  ⟨by norm_num, C3_adapter_failure_behaviour.2.1 { status := 500, body := .ok [] } (by norm_num)⟩

/-- C4 counterexample: the claim says an exception enriching one record
leaves that record as its fallback and still returns every other
record.  With two surviving records where the lookup of the second one
returns a null-titled match (similar(None, ...) raises
AttributeError), the whole batch errors: no fallback record and no
first record are returned. -/
theorem C4_counterexample_batch_aborts :
    enrich_gs_results_parallel (.max_results 1) lookupBad [gsA, gsB] (some []) [0, 1]
      = .error .attributeError := by
  with_unfolding_all decide

/-- C4 amended: enrich_gs_results_parallel has no per-task isolation:
it equals the sequential enrichment of the surviving records, in which
the first task exception (in index order) aborts the whole batch; the
secondary-source fallback is produced only when the lookup misses, not
on an exception. -/
theorem C4_no_task_isolation :
    (∀ lookup gs sem sched (unique : List GsResult),
      filterNonDup sem gs = .ok unique →
      (∀ j, j < unique.length → j ∈ sched) →
      enrich_gs_results_parallel (.max_results 1) lookup gs sem sched
        = mapEnrich (enrich_with_semantic_scholar (.max_results 1) lookup) unique) ∧
    (∀ lookup (g : GsResult), lookup (g.title.getD (.str "")) 1 = [] →
      enrich_with_semantic_scholar (.max_results 1) lookup g = .ok (gsFallback g)) ∧
    (∀ (f : GsResult → Except PyErr NRec) (l : List GsResult) (g : GsResult) (e : PyErr),
      g ∈ l → f g = .error e → ∃ e2, mapEnrich f l = .error e2) := by
  refine ⟨?_, ?_, mapEnrich_error_propagates⟩
  · intro lookup gs sem sched unique hfil hsched
    show (match filterNonDup sem gs with
      | Except.error e => Except.error e
      | Except.ok u =>
        executorMap (enrich_with_semantic_scholar (.max_results 1) lookup) u sched) = _
    rw [hfil]
    exact executorMap_eq_mapEnrich _ unique sched hsched
  · intro lookup g h
    show (match callSemScholarLookup lookup (.max_results 1) (g.title.getD (.str "")) with
      | Except.error e => Except.error e
      | Except.ok semResults =>
        match semResults with
        | top :: _ =>
          match similarPy top.title (g.title.getD (.str "")) with
          | Except.error e => Except.error e
          | Except.ok s => if 9 / 10 ≤ s then Except.ok top else Except.ok (gsFallback g)
        | [] => Except.ok (gsFallback g)) = Except.ok (gsFallback g)
    show (match lookup (g.title.getD (.str "")) 1 with
      | top :: _ =>
        match similarPy top.title (g.title.getD (.str "")) with
        | Except.error e => Except.error e
        | Except.ok s => if 9 / 10 ≤ s then Except.ok top else Except.ok (gsFallback g)
      | [] => Except.ok (gsFallback g)) = Except.ok (gsFallback g)
    rw [h]

/-- C4 witness: the fallback conjunct applied to a concrete record. -/
theorem C4_no_task_isolation_witness :
    lookupEmpty (gsA.title.getD (.str "")) 1 = [] ∧
      enrich_with_semantic_scholar (.max_results 1) lookupEmpty gsA = .ok (gsFallback gsA) :=
  ⟨rfl, C4_no_task_isolation.2.1 lookupEmpty gsA rfl⟩

/-- C5: enrich_gs_results_parallel first drops every secondary record
whose title is a duplicate of a primary record, then (whenever every
surviving enrichment succeeds) returns exactly one record per
surviving input, in filtered input order, for every completion
schedule of the worker pool that runs all tasks. -/
theorem C5_enrich_parallel_order :
    ∀ (lookup : PyVal → ℕ → List NRec) (gs : List GsResult) (sem : List NRec)
      (sched : List ℕ),
      (∀ r ∈ sem, wfSemTitle r) →
      (∀ g ∈ gs, wfGsTitle g) →
      (∀ g ∈ gs.filter (fun g => !(dupPure g sem)),
        ∃ r, enrich_with_semantic_scholar (.max_results 1) lookup g = .ok r) →
      (∀ j, j < (gs.filter (fun g => !(dupPure g sem))).length → j ∈ sched) →
      ∃ out, enrich_gs_results_parallel (.max_results 1) lookup gs (some sem) sched = .ok out ∧
        out.length = (gs.filter (fun g => !(dupPure g sem))).length ∧
        ∀ i : ℕ, out[i]? = ((gs.filter (fun g => !(dupPure g sem)))[i]?).bind
          (fun g => (enrich_with_semantic_scholar (.max_results 1) lookup g).toOption) := by
  intro lookup gs sem sched hsem hgs htask hsched
  have hfil := filterNonDup_pure sem hsem gs hgs
  have hrun : enrich_gs_results_parallel (.max_results 1) lookup gs (some sem) sched
      = executorMap (enrich_with_semantic_scholar (.max_results 1) lookup)
          (gs.filter (fun g => !(dupPure g sem))) sched := by
    show (match filterNonDup (some sem) gs with
      | Except.error e => Except.error e
      | Except.ok u =>
        executorMap (enrich_with_semantic_scholar (.max_results 1) lookup) u sched) = _
    rw [hfil]
  obtain ⟨out, hout⟩ := mapEnrich_all_ok _ _ htask
  obtain ⟨hlen, hget⟩ := mapEnrich_ok_char _ _ _ hout
  refine ⟨out, ?_, hlen, hget⟩
  rw [hrun, executorMap_eq_mapEnrich _ _ sched hsched, hout]

/-- C5 witness: a single secondary record, empty primary set, empty
lookup, schedule [0]. -/
theorem C5_enrich_parallel_order_witness :
    ∃ out, enrich_gs_results_parallel (.max_results 1) lookupEmpty [gsA] (some []) [0]
        = .ok out ∧
      out.length = ([gsA].filter (fun g => !(dupPure g []))).length ∧
      ∀ i : ℕ, out[i]? = (([gsA].filter (fun g => !(dupPure g [])))[i]?).bind
        (fun g => (enrich_with_semantic_scholar (.max_results 1) lookupEmpty g).toOption) := by
  apply C5_enrich_parallel_order lookupEmpty [gsA] [] [0]
  · intro r hr
    exact absurd hr (List.not_mem_nil r)
  · intro g hg
    rw [List.mem_singleton.mp hg]
    exact Or.inr ⟨"A", rfl⟩
  · intro g hg
    have : g = gsA := by
      have := List.mem_filter.mp hg
      exact List.mem_singleton.mp this.1
    rw [this]
    exact ⟨gsFallback gsA, rfl⟩
  · intro j hj
    have : ([gsA].filter (fun g => !(dupPure g []))).length ≤ 1 := by
      simpa using List.length_filter_le _ [gsA]
    have hj0 : j = 0 := by omega
    rw [hj0]
    exact List.mem_singleton.mpr rfl

/-- C6: rank_papers_by_relevance returns the scored records sorted by
relevance_score descending; equal scores keep their input order (the
filter of any relevance class is preserved verbatim, which is exactly
stability for the unique stable descending sort); the empty input
yields [] without error.  Stated over the packaged variant, whose
vectorizer step succeeds (the top-level variant always raises
NotFittedError first; see the C10 theorem). -/
theorem C6_rank_sorted_stable_empty :
    (∀ o q, rank_papers_by_relevance_pkg o [] q = .ok []) ∧
    (∀ (o : RankOracle) (q : String) (papers : List Paper) (scored out : List Scored),
      rank_papers_by_relevance_pkg o papers q = .ok out →
      scoreAll o 0 papers = .ok scored →
      List.Sorted relDesc out ∧ out.Perm scored ∧
        ∀ v : ℚ, out.filter (fun s => decide (s.relevance_score = v))
          = scored.filter (fun s => decide (s.relevance_score = v))) := by
  constructor
  · intro o q
    rfl
  · intro o q papers scored out hrank hscore
    by_cases hemp : papers.isEmpty
    · have hpnil : papers = [] := List.isEmpty_iff.mp hemp
      subst hpnil
      unfold rank_papers_by_relevance_pkg at hrank
      rw [if_pos (by rfl)] at hrank
      injection hrank with hrank
      injection hscore with hscore
      subst hrank
      subst hscore
      exact ⟨List.sorted_nil, List.Perm.refl _, fun v => rfl⟩
    · unfold rank_papers_by_relevance_pkg at hrank
      rw [if_neg hemp] at hrank
      split at hrank
      · rename_i e heq
        have hv : get_paper_vectors_pkg papers q = .ok () := rfl
        rw [hv] at heq
        exact absurd heq (by simp)
      · split at hrank
        · rename_i e heq
          rw [hscore] at heq
          exact absurd heq (by simp)
        · rename_i scored2 heq
          rw [hscore] at heq
          injection heq with heq
          subst heq
          injection hrank with hrank
          subst hrank
          refine ⟨List.sorted_insertionSort relDesc _, List.perm_insertionSort relDesc _, ?_⟩
          intro v
          exact pySortDesc_filter_key v _

/-- C6 witness: a single concrete paper through the packaged ranking. -/
theorem C6_rank_sorted_stable_empty_witness :
    List.Sorted relDesc [scoredPlain] ∧ [scoredPlain].Perm [scoredPlain] ∧
      ∀ v : ℚ, [scoredPlain].filter (fun s => decide (s.relevance_score = v))
        = [scoredPlain].filter (fun s => decide (s.relevance_score = v)) :=
  C6_rank_sorted_stable_empty.2 oracle0 "x" [paperPlain] [scoredPlain] [scoredPlain]
    (by with_unfolding_all decide) (by with_unfolding_all decide)

/-- C7 counterexample: similar is not symmetric:
similar("ab", "bacb") = 2/3 but similar("bacb", "ab") = 1/3 (the
difflib matcher finds the single block "a" and then "b" on the first
orientation, but only "b" on the second). -/
theorem C7_counterexample_asymmetric :
    similar "ab" "bacb" = 2 / 3 ∧ similar "bacb" "ab" = 1 / 3 ∧
      similar "ab" "bacb" ≠ similar "bacb" "ab" := by
  refine ⟨?_, ?_, ?_⟩ <;> with_unfolding_all decide

/-- C7 amended: similar(a, b) always lies in [0, 1], similar(a, a) is
1.0 for every non-empty a (indeed for every a), and similar is
case-insensitive as in the claimed example; the symmetry conjunct of
the claim is false (see the counterexample). -/
theorem C7_similar_spec :
    (∀ a b : String, 0 ≤ similar a b ∧ similar a b ≤ 1) ∧
    (∀ a : String, a ≠ "" → similar a a = 1) ∧
    similar "Foo" "foo" = similar "foo" "foo" := by
  refine ⟨?_, ?_, by with_unfolding_all decide⟩
  · intro a b
    exact ⟨Difflib.smRatio_nonneg _ _, Difflib.smRatio_le_one _ _⟩
  · intro a _
    exact Difflib.smRatio_self _

/-- C7 witness: the identity conjunct applied to a concrete string. -/
theorem C7_similar_spec_witness :
    ("ab" : String) ≠ "" ∧ similar "ab" "ab" = 1 :=
  ⟨by decide, C7_similar_spec.2.1 "ab" (by decide)⟩

/-- C8 counterexample: the claim says the paginated adapter accumulates
no results beyond the point where the count reaches the requested
maximum.  The loop checks its hardcoded cap of 10 only at page
boundaries, so a 12-result first page is accumulated whole: 12 results
are returned (and the next page is not fetched). -/
theorem C8_counterexample_exceeds_cap :
    (googlescholar_results [page12, page5]).map List.length = .ok 12 ∧ 10 < 12 := by
  refine ⟨by with_unfolding_all decide, by norm_num⟩

/-- C8 amended: the paginated loop processes a maximal prefix of pages:
after each whole page is appended, it fetches the next page exactly
when the page reports a next link and the accumulated count is below
the hardcoded 10 (not a caller-supplied maximum); every record of every
processed page is accumulated, so the output can exceed 10. -/
theorem C8_pagination_spec :
    ∀ pages : List SerpPage, (∀ p ∈ pages, wfPage p) →
      googlescholar_results pages = .ok ((pagesTaken pages 0).flatMap pageRecsD) := by
  intro pages hwf
  exact gsLoop_spec pages 0 [] hwf

/-- C8 witness: the characterization applied to a concrete page list. -/
theorem C8_pagination_spec_witness :
    (∀ p ∈ [page5], wfPage p) ∧
      googlescholar_results [page5] = .ok ((pagesTaken [page5] 0).flatMap pageRecsD) :=
  ⟨by decide, C8_pagination_spec [page5] (by decide)⟩

/-- C9: enrich_with_semantic_scholar is claimed to adopt the primary
top result of the primary lookup when its title similarity is at
least 0.9 and to
fall back to the secondary fields otherwise.  The top-level
src/SearchGoogleScholar.py calls get_semantic_scholar_results with the
keyword limit=1, but the signature of that function is
(query, max_results=10), so every call raises TypeError before any
lookup; the max_results=1 call of the packaged variant behaves exactly as
claimed (fallback with empty year and venue on a lookup miss). -/
theorem C9_limit_kwarg_typeerror :
    (∀ lookup (g : GsResult),
      enrich_with_semantic_scholar (.limit 1) lookup g = .error .typeError) ∧
    enrich_with_semantic_scholar (.limit 1) lookupEmpty gsNovel = .error .typeError ∧
    enrich_with_semantic_scholar (.max_results 1) lookupEmpty gsNovel
      = .ok (gsFallback gsNovel) ∧
    (gsFallback gsNovel).year = .str "" ∧ (gsFallback gsNovel).venue = .str "" := by
  exact ⟨fun lookup g => rfl, rfl, rfl, rfl, rfl⟩

/-- C10: the two rank_papers_by_relevance implementations are claimed
to be equivalent, both transforming the query with an already-fitted
vectorizer.  The top-level get_paper_vectors transforms the query
before fitting, so the top-level ranker raises NotFittedError on every
non-empty input while the packaged one succeeds. -/
theorem C10_variants_diverge :
    (∀ (o : RankOracle) (q : String) (p : Paper) (ps : List Paper),
      rank_papers_by_relevance_root o (p :: ps) q = .error .notFittedError) ∧
    rank_papers_by_relevance_root oracle0 [paperPlain] "a" = .error .notFittedError ∧
    rank_papers_by_relevance_pkg oracle0 [paperPlain] "a" = .ok [scoredPlain] := by
  refine ⟨fun o q p ps => rfl, rfl, by with_unfolding_all decide⟩
